import Mathlib

/-!
# Particle field engines of `index.js` and `script.js`

A shallow embedding of the two particle engines of the portfolio page:

* `index.js`  : `class ParticleSystem` (`createParticles`, `drawConnections`,
  `updateParticle`, the `mousemove` / `mouseleave` handlers, `resize`);
* `script.js` : `class Particle` (`constructor`, `update`), the particle creation
  loop, `resize` and the connection loop of `animate`.

JavaScript numbers are read as real numbers: `Math.sqrt`, `Math.cos`, `Math.sin`,
`Math.max`, `Math.min` and `Math.floor` are the real functions of the same name and
`Math.atan2` is the argument of a point of the plane.  The real numbers have no
decision procedure for `<`, hence the definitions live in a `noncomputable section`;
on concrete rational inputs they are evaluated by `norm_num` / `simp`.

Drawing is modelled by the list of strokes that a pass sends to the 2D context, in
the order of the calls.  `Math.random()` is modelled by a stream `rand : ℕ → ℝ`
whose `k`-th element is the value of the `k`-th call.
-/

namespace Me2026

noncomputable section

/-- Math.atan2(y, x): the angle of the point `(x, y)`, in `(-π, π]`, and `0` at the
origin. -/
def atan2 (y x : ℝ) : ℝ := Complex.arg ⟨x, y⟩

/-- Euclidean norm of a velocity `(vx, vy)`. -/
def speed (vx vy : ℝ) : ℝ := Real.sqrt (vx * vx + vy * vy)

/-- One stroke of a connection pass: `moveTo(x1, y1); lineTo(x2, y2); stroke()` with the
alpha channel `opacity` of `strokeStyle` and the `lineWidth`; `i` and `j` record the
indices of the two particles the stroke was drawn for. -/
structure Line where
  i : ℕ
  j : ℕ
  x1 : ℝ
  y1 : ℝ
  x2 : ℝ
  y2 : ℝ
  opacity : ℝ
  lineWidth : ℝ

/-- The index pairs of a list of strokes, in drawing order. -/
def Line.pairs (ls : List Line) : List (ℕ × ℕ) := ls.map (fun l => (l.i, l.j))

/-- JavaScript array read `xs[i]` at an integral number `i`: `undefined` (here `none`)
outside `0 .. xs.length - 1`. -/
def jsIndex {α : Type} (xs : List α) (i : ℤ) : Option α :=
  if i < 0 then none else xs[i.toNat]?

/-! ## index.js -/

namespace IndexJs

/-- The object literal pushed by `createParticles`. -/
structure Particle where
  x : ℝ
  y : ℝ
  vx : ℝ
  vy : ℝ
  radius : ℝ

/-- The fields `this.canvas.width` and `this.canvas.height`. -/
structure Canvas where
  width : ℝ
  height : ℝ

/-- The object `this.mouse`; `null` is `none`. -/
structure Mouse where
  x : Option ℝ
  y : Option ℝ
  radius : ℝ

/-- The fields of `ParticleSystem` that the engine reads and writes. -/
structure ParticleSystem where
  canvas : Canvas
  particles : List Particle
  particleCount : ℕ
  mouse : Mouse

/-- The value of `this.mouse` set by the constructor. -/
def Mouse.init : Mouse := { x := none, y := none, radius := 150 }

/-- The `mousemove` handler: `mouse.x = e.clientX - rect.left; mouse.y = e.clientY - rect.top`. -/
def Mouse.mousemove (mouse : Mouse) (clientX clientY left top : ℝ) : Mouse :=
  { mouse with x := some (clientX - left), y := some (clientY - top) }

/-- The `mouseleave` handler: `mouse.x = null; mouse.y = null`. -/
def Mouse.mouseleave (mouse : Mouse) : Mouse :=
  { mouse with x := none, y := none }

/-- The method `resize`: only the canvas dimensions are assigned. -/
def ParticleSystem.resize (s : ParticleSystem) (offsetWidth offsetHeight : ℝ) : ParticleSystem :=
  { s with canvas := { width := offsetWidth, height := offsetHeight } }

/-- The object literal of the `i`-th iteration of `createParticles`, whose five
`Math.random()` calls are the calls number `5 * i .. 5 * i + 4`. -/
def newParticle (canvas : Canvas) (rand : ℕ → ℝ) (i : ℕ) : Particle :=
  { x := rand (5 * i) * canvas.width
    y := rand (5 * i + 1) * canvas.height
    vx := (rand (5 * i + 2) - 0.5) * 0.5
    vy := (rand (5 * i + 3) - 0.5) * 0.5
    radius := rand (5 * i + 4) * 2 + 1 }

/-- The loop `for (let i = 0; i < this.particleCount; i++) this.particles.push(...)`,
entered at `i` with the array `acc`. -/
def createParticlesLoop (canvas : Canvas) (particleCount : ℕ) (rand : ℕ → ℝ)
    (i : ℕ) (acc : List Particle) : List Particle :=
  if i < particleCount then
    createParticlesLoop canvas particleCount rand (i + 1) (acc ++ [newParticle canvas rand i])
  else acc
termination_by particleCount - i

/-- The method `createParticles`: `this.particles = []` and the loop. -/
def ParticleSystem.createParticles (s : ParticleSystem) (rand : ℕ → ℝ) : ParticleSystem :=
  { s with particles := createParticlesLoop s.canvas s.particleCount rand 0 [] }

/-- The constructor followed by the `resize(); createParticles()` of `init`:
`particleCount = 50`, the pointer absent. -/
def ParticleSystem.new (offsetWidth offsetHeight : ℝ) (rand : ℕ → ℝ) : ParticleSystem :=
  ParticleSystem.createParticles
    (ParticleSystem.resize
      { canvas := { width := 0, height := 0 }, particles := [], particleCount := 50,
        mouse := Mouse.init }
      offsetWidth offsetHeight)
    rand

/-- The inner loop `for (let j = ...; j < particles.length; j++)` of `drawConnections`,
entered at `j`, for the outer index `i`. -/
def drawConnectionsInner (particles : List Particle) (i : ℕ) (hi : i < particles.length)
    (j : ℕ) : List Line :=
  if hj : j < particles.length then
    let dx := particles[i].x - particles[j].x
    let dy := particles[i].y - particles[j].y
    let distance := Real.sqrt (dx * dx + dy * dy)
    (if distance < 120 then
      [{ i := i, j := j
         x1 := particles[i].x, y1 := particles[i].y
         x2 := particles[j].x, y2 := particles[j].y
         opacity := (1 - distance / 120) * 0.3
         lineWidth := 0.5 }]
    else []) ++ drawConnectionsInner particles i hi (j + 1)
  else []
termination_by particles.length - j

/-- The outer loop `for (let i = ...; i < particles.length; i++)` of `drawConnections`,
entered at `i`; the inner loop starts at `j = i + 1`. -/
def drawConnectionsOuter (particles : List Particle) (i : ℕ) : List Line :=
  if hi : i < particles.length then
    drawConnectionsInner particles i hi (i + 1) ++ drawConnectionsOuter particles (i + 1)
  else []
termination_by particles.length - i

/-- The method `drawConnections`: the strokes it draws, in order. -/
def drawConnections (particles : List Particle) : List Line :=
  drawConnectionsOuter particles 0

/-- The method `updateParticle`: move, bounce off edges, mouse interaction, friction. -/
def updateParticle (canvas : Canvas) (mouse : Mouse) (particle : Particle) : Particle :=
  -- Move particle
  let x := particle.x + particle.vx
  let y := particle.y + particle.vy
  -- Bounce off edges
  let vx := if x < 0 ∨ x > canvas.width then particle.vx * -1 else particle.vx
  let vy := if y < 0 ∨ y > canvas.height then particle.vy * -1 else particle.vy
  -- Mouse interaction
  let v : ℝ × ℝ :=
    match mouse.x, mouse.y with
    | some mx, some my =>
      let dx := mx - x
      let dy := my - y
      let distance := Real.sqrt (dx * dx + dy * dy)
      if distance < mouse.radius then
        let force := (mouse.radius - distance) / mouse.radius
        let angle := atan2 dy dx
        (vx - Real.cos angle * force * 0.2, vy - Real.sin angle * force * 0.2)
      else (vx, vy)
    | _, _ => (vx, vy)
  -- Add friction
  { particle with x := x, y := y, vx := v.1 * 0.99, vy := v.2 * 0.99 }

/-- The `forEach` of `animate` over the frames of a run: `updateParticle` applied to
one particle once per frame, the frame `k` seeing the pointer state `mice[k]`. -/
def run (canvas : Canvas) : List Mouse → Particle → Particle
  | [], particle => particle
  | mouse :: mice, particle => run canvas mice (updateParticle canvas mouse particle)

end IndexJs

/-! ## script.js -/

namespace ScriptJs

/-- The fields assigned by the constructor of `class Particle`. -/
structure Particle where
  x : ℝ
  y : ℝ
  vx : ℝ
  vy : ℝ
  size : ℝ
  colors : List String
  color : Option String
  alpha : ℝ

/-- The global `mouse`, initially `{ x: 0, y: 0, radius: 150 }`. -/
structure Mouse where
  x : ℝ
  y : ℝ
  radius : ℝ

/-- The initial value of the global `mouse`. -/
def Mouse.init : Mouse := { x := 0, y := 0, radius := 150 }

/-- The `mousemove` handler: `mouse.x = e.clientX; mouse.y = e.clientY`. -/
def Mouse.mousemove (mouse : Mouse) (clientX clientY : ℝ) : Mouse :=
  { mouse with x := clientX, y := clientY }

/-- The globals `width`, `height`, `particles`, `mouse`. -/
structure Globals where
  width : ℝ
  height : ℝ
  particles : List Particle
  mouse : Mouse

/-- The function `resize`: `width = canvas.width = innerWidth`, and the same for the height. -/
def resize (g : Globals) (innerWidth innerHeight : ℝ) : Globals :=
  { g with width := innerWidth, height := innerHeight }

/-- The palette `this.colors`. -/
def palette : List String := ["#00f0ff", "#bd00ff", "#ff006e"]

/-- The palette index `Math.floor(r * this.colors.length)` of the constructor. -/
def colorIndex (colors : List String) (r : ℝ) : ℤ := ⌊r * (colors.length : ℝ)⌋

/-- The constructor of `class Particle`, whose seven `Math.random()` calls are the
calls number `k .. k + 6`. -/
def Particle.new (width height : ℝ) (rand : ℕ → ℝ) (k : ℕ) : Particle :=
  let colors := palette
  { x := rand k * width
    y := rand (k + 1) * height
    vx := (rand (k + 2) - 0.5) * 0.8
    vy := (rand (k + 3) - 0.5) * 0.8
    size := rand (k + 4) * 2.5 + 0.5
    colors := colors
    color := jsIndex colors (colorIndex colors (rand (k + 5)))
    alpha := rand (k + 6) * 0.5 + 0.2 }

/-- The loop `for (let i = 0; i < 80; i++) particles.push(new Particle())`, entered at
`i` with the array `acc`; the bound `80` is the argument `count`. -/
def createLoop (width height : ℝ) (count : ℕ) (rand : ℕ → ℝ) (i : ℕ)
    (acc : List Particle) : List Particle :=
  if i < count then
    createLoop width height count rand (i + 1) (acc ++ [Particle.new width height rand (7 * i)])
  else acc
termination_by count - i

/-- The global `particles` after the creation loop, from `particles = []`. -/
def createParticles (width height : ℝ) (rand : ℕ → ℝ) : List Particle :=
  createLoop width height 80 rand 0 []

/-- The method `update`: mouse interaction, move, friction, bounce off edges, keep in
bounds. -/
def Particle.update (width height : ℝ) (mouse : Mouse) (p : Particle) : Particle :=
  -- Mouse interaction
  let dx := mouse.x - p.x
  let dy := mouse.y - p.y
  let distance := Real.sqrt (dx * dx + dy * dy)
  let v : ℝ × ℝ :=
    if distance < mouse.radius then
      let angle := atan2 dy dx
      let force := (mouse.radius - distance) / mouse.radius
      (p.vx - Real.cos angle * force * 0.5, p.vy - Real.sin angle * force * 0.5)
    else (p.vx, p.vy)
  let x := p.x + v.1
  let y := p.y + v.2
  -- Friction
  let vx := v.1 * 0.99
  let vy := v.2 * 0.99
  -- Bounce off edges
  let vx := if x < 0 ∨ x > width then vx * -1 else vx
  let vy := if y < 0 ∨ y > height then vy * -1 else vy
  -- Keep in bounds
  let x := max 0 (min width x)
  let y := max 0 (min height y)
  { p with x := x, y := y, vx := vx, vy := vy }

/-- The `forEach` of `animate` over the frames of a run: `update` applied to one
particle once per frame, the frame `k` seeing the pointer state `mice[k]`. -/
def run (width height : ℝ) : List Mouse → Particle → Particle
  | [], p => p
  | mouse :: mice, p => run width height mice (Particle.update width height mouse p)

/-- The inner loop `for (let j = index + 1; j < particles.length; j++)` of the
connection pass of `animate`, entered at `j`, for the element `a` at `index`. -/
def connectInner (particles : List Particle) (a : Particle) (index j : ℕ) : List Line :=
  if hj : j < particles.length then
    let b := particles[j]
    let dx := a.x - b.x
    let dy := a.y - b.y
    let distance := Real.sqrt (dx * dx + dy * dy)
    (if distance < 120 then
      [{ i := index, j := j
         x1 := a.x, y1 := a.y
         x2 := b.x, y2 := b.y
         opacity := (120 - distance) / 120 * 0.15
         lineWidth := 1 }]
    else []) ++ connectInner particles a index (j + 1)
  else []
termination_by particles.length - j

/-- The `particles.forEach((a, index) => ...)` of the connection pass, with `rest` the
elements still to visit and `index` the index of the first of them. -/
def connectForEach (particles : List Particle) : List Particle → ℕ → List Line
  | [], _ => []
  | a :: rest, index =>
    connectInner particles a index (index + 1) ++ connectForEach particles rest (index + 1)

/-- The connection pass of `animate`: the strokes it draws, in order. -/
def drawConnections (particles : List Particle) : List Line :=
  connectForEach particles particles 0

end ScriptJs

/-! ## The step of the specification -/

namespace Spec

open IndexJs

/-- Step (1), pointer repulsion: if the pointer is present and the particle is nearer
than the influence radius, the unit direction of the pointer axis is taken by `atan2`
and an acceleration of strength `k`, falling off linearly as
`(influenceRadius - distance) / influenceRadius`, is subtracted from the velocity
along it. -/
def repel (k : ℝ) (mouse : Mouse) (p : Particle) : Particle :=
  match mouse.x, mouse.y with
  | some mx, some my =>
    let distance := Real.sqrt ((mx - p.x) * (mx - p.x) + (my - p.y) * (my - p.y))
    if distance < mouse.radius then
      let angle := atan2 (my - p.y) (mx - p.x)
      let a := k * ((mouse.radius - distance) / mouse.radius)
      { p with vx := p.vx - a * Real.cos angle, vy := p.vy - a * Real.sin angle }
    else p
  | _, _ => p

/-- Step (2), integrate: `position += velocity`. -/
def integrate (p : Particle) : Particle :=
  { p with x := p.x + p.vx, y := p.y + p.vy }

/-- Step (3), boundary bounce: on each axis, the velocity component is inverted if the
position is outside `[0, dimension]`. -/
def bounce (canvas : Canvas) (p : Particle) : Particle :=
  { p with
    vx := if p.x < 0 ∨ canvas.width < p.x then -p.vx else p.vx
    vy := if p.y < 0 ∨ canvas.height < p.y then -p.vy else p.vy }

/-- Step (4), friction: `velocity *= frictionFactor`. -/
def friction (frictionFactor : ℝ) (p : Particle) : Particle :=
  { p with vx := p.vx * frictionFactor, vy := p.vy * frictionFactor }

/-- The steps in the order in which the specification states them:
(1) repulsion, (2) integrate, (3) bounce, (4) friction, with the constants of `index.js`. -/
def stepStatedOrder (canvas : Canvas) (mouse : Mouse) (p : Particle) : Particle :=
  friction 0.99 (bounce canvas (integrate (repel 0.2 mouse p)))

/-- The same four steps in the order (2) integrate, (3) bounce, (1) repulsion,
(4) friction. -/
def stepMoveFirst (canvas : Canvas) (mouse : Mouse) (p : Particle) : Particle :=
  friction 0.99 (repel 0.2 mouse (bounce canvas (integrate p)))

end Spec

/-! ## Predicates used by the statements -/

/-- Euclidean distance of two particles of `index.js`, as the connection pass computes
it: `Math.sqrt(dx * dx + dy * dy)`. -/
def IndexJs.dist (a b : IndexJs.Particle) : ℝ :=
  Real.sqrt ((a.x - b.x) * (a.x - b.x) + (a.y - b.y) * (a.y - b.y))

/-- Euclidean distance of two particles of `script.js`, as the connection pass computes
it: `Math.sqrt(dx * dx + dy * dy)`. -/
def ScriptJs.dist (a b : ScriptJs.Particle) : ℝ :=
  Real.sqrt ((a.x - b.x) * (a.x - b.x) + (a.y - b.y) * (a.y - b.y))

/-- Distance from the particle to the pointer, as `update` of `script.js` computes it
at the start of a frame. -/
def ScriptJs.pointerDistance (mouse : ScriptJs.Mouse) (p : ScriptJs.Particle) : ℝ :=
  Real.sqrt ((mouse.x - p.x) * (mouse.x - p.x) + (mouse.y - p.y) * (mouse.y - p.y))

/-- No pointer force along a run of `script.js`: at each frame the influence radius is
`150` and the particle, where the frame finds it, is at distance at least `150` from the
pointer of that frame. -/
def ScriptJs.Unforced (width height : ℝ) : List ScriptJs.Mouse → ScriptJs.Particle → Prop
  | [], _ => True
  | mouse :: mice, p =>
    mouse.radius = 150 ∧ 150 ≤ ScriptJs.pointerDistance mouse p ∧
      ScriptJs.Unforced width height mice (ScriptJs.Particle.update width height mouse p)

/-- The position `(x, y)` lies on the surface `[0, width] × [0, height]`. -/
def InBounds (width height x y : ℝ) : Prop :=
  0 ≤ x ∧ x ≤ width ∧ 0 ≤ y ∧ y ≤ height

/-- The ranges of a freshly constructed particle of `index.js` on a canvas: position in
`[0, width) × [0, height)`, radius in `[1, 3)`, velocity components in `[-0.25, 0.25)`. -/
def IndexJs.InConstructionRanges (canvas : IndexJs.Canvas) (p : IndexJs.Particle) : Prop :=
  (0 ≤ p.x ∧ p.x < canvas.width) ∧ (0 ≤ p.y ∧ p.y < canvas.height) ∧
    (1 ≤ p.radius ∧ p.radius < 3) ∧
    (-0.25 ≤ p.vx ∧ p.vx < 0.25) ∧ (-0.25 ≤ p.vy ∧ p.vy < 0.25)

/-- The ranges of a freshly constructed particle of `script.js` on a surface: position in
`[0, width) × [0, height)`, size in `[0.5, 3)`, velocity components in `[-0.4, 0.4)`,
alpha in `[0.2, 0.7)`, and a colour of the palette. -/
def ScriptJs.InConstructionRanges (width height : ℝ) (p : ScriptJs.Particle) : Prop :=
  (0 ≤ p.x ∧ p.x < width) ∧ (0 ≤ p.y ∧ p.y < height) ∧
    (0.5 ≤ p.size ∧ p.size < 3) ∧
    (-0.4 ≤ p.vx ∧ p.vx < 0.4) ∧ (-0.4 ≤ p.vy ∧ p.vy < 0.4) ∧
    (0.2 ≤ p.alpha ∧ p.alpha < 0.7) ∧
    (∃ c ∈ ScriptJs.palette, p.color = some c)

/-! ## Concrete inputs used by the witnesses -/

/-- A particle of `index.js` about to leave a 800 × 600 canvas through the right edge. -/
def IndexJs.edgeParticle : IndexJs.Particle :=
  { x := 799, y := 300, vx := 5, vy := -2, radius := 1 }

/-- A particle of `script.js` about to leave a 800 × 600 surface through the right edge. -/
def ScriptJs.edgeParticle : ScriptJs.Particle :=
  { x := 799, y := 300, vx := 5, vy := -2, size := 1, colors := ScriptJs.palette,
    color := some "#00f0ff", alpha := 0.5 }

/-- The field of the end-to-end scenario: three particles at `(0, 0)`, `(50, 0)` and
`(200, 200)` with zero velocity (and any radii). -/
def IndexJs.threeParticles (r0 r1 r2 : ℝ) : List IndexJs.Particle :=
  [{ x := 0, y := 0, vx := 0, vy := 0, radius := r0 },
   { x := 50, y := 0, vx := 0, vy := 0, radius := r1 },
   { x := 200, y := 200, vx := 0, vy := 0, radius := r2 }]

/-- A particle of `index.js` inside a 800 × 600 canvas, within the ranges of
`createParticles`, one step from the right edge: its next move overshoots the edge by
`0.199`, more than the speed `0.198` that the bounce leaves it. -/
def IndexJs.stuckParticle : IndexJs.Particle :=
  { x := 799.999, y := 300, vx := 0.2, vy := 0, radius := 1 }

end

/-! ## Theorems -/

section Bounds

open ScriptJs

theorem update_inBounds (width height : ℝ) (hw : 0 ≤ width) (hh : 0 ≤ height)
    (mouse : Mouse) (p : Particle) :
    InBounds width height (Particle.update width height mouse p).x
      (Particle.update width height mouse p).y := by
  simp only [Particle.update, InBounds]
  refine ⟨le_max_left _ _, max_le hw (min_le_left _ _), le_max_left _ _,
    max_le hh (min_le_left _ _)⟩

theorem run_cons_inBounds (width height : ℝ) (hw : 0 ≤ width) (hh : 0 ≤ height)
    (mice : List Mouse) : ∀ (mouse : Mouse) (p : Particle),
    InBounds width height (run width height (mouse :: mice) p).x
      (run width height (mouse :: mice) p).y := by
  induction mice with
  | nil => intro mouse p; exact update_inBounds width height hw hh mouse p
  | cons m ms ih => intro mouse p; exact ih m _

/-- C1. Bounds invariant of the clamping engine (`Particle.update` of `script.js`): on a
surface with `width ≥ 0` and `height ≥ 0`, for every particle state and every pointer
state, the particle satisfies `0 ≤ x ≤ width` and `0 ≤ y ≤ height` after one call of
`update`, and hence after any run of one or more steps (`1 + mice.length` frames, with
an arbitrary pointer state at each frame). -/
theorem C1_update_keeps_particle_in_bounds (width height : ℝ) (mouse : Mouse)
    (mice : List Mouse) (p : Particle) (hw : 0 ≤ width) (hh : 0 ≤ height) :
    InBounds width height (Particle.update width height mouse p).x
        (Particle.update width height mouse p).y ∧
      InBounds width height (run width height (mouse :: mice) p).x
        (run width height (mouse :: mice) p).y :=
  ⟨update_inBounds width height hw hh mouse p, run_cons_inBounds width height hw hh mice mouse p⟩

/-- Witness of C1: a 800 × 600 surface, a particle leaving through the right edge while
the pointer moves. -/
theorem C1_update_keeps_particle_in_bounds_witness :
    ((0 : ℝ) ≤ 800 ∧ (0 : ℝ) ≤ 600) ∧
      InBounds 800 600
        (Particle.update 800 600 ⟨0, 0, 150⟩ ⟨799, 300, 5, 0, 1, palette, none, 1⟩).x
        (Particle.update 800 600 ⟨0, 0, 150⟩ ⟨799, 300, 5, 0, 1, palette, none, 1⟩).y ∧
      InBounds 800 600
        (run 800 600 [⟨0, 0, 150⟩, ⟨700, 300, 150⟩] ⟨799, 300, 5, 0, 1, palette, none, 1⟩).x
        (run 800 600 [⟨0, 0, 150⟩, ⟨700, 300, 150⟩] ⟨799, 300, 5, 0, 1, palette, none, 1⟩).y :=
  ⟨⟨by norm_num, by norm_num⟩,
    C1_update_keeps_particle_in_bounds 800 600 ⟨0, 0, 150⟩ [⟨700, 300, 150⟩]
      ⟨799, 300, 5, 0, 1, palette, none, 1⟩ (by norm_num) (by norm_num)⟩

end Bounds

section Connections

theorem Line.pairs_append (l₁ l₂ : List Line) :
    Line.pairs (l₁ ++ l₂) = Line.pairs l₁ ++ Line.pairs l₂ := by
  simp [Line.pairs]

namespace IndexJs

theorem inner_spec (ps : List Particle) (i : ℕ) (hi : i < ps.length) :
    ∀ (n j0 : ℕ), ps.length - j0 = n →
      (Line.pairs (drawConnectionsInner ps i hi j0)).Nodup ∧
      ∀ a b, (a, b) ∈ Line.pairs (drawConnectionsInner ps i hi j0) ↔
        a = i ∧ j0 ≤ b ∧ ∃ hb : b < ps.length, dist ps[i] ps[b] < 120 := by
  intro n
  induction n with
  | zero =>
    intro j0 h
    have hj : ¬ j0 < ps.length := by omega
    rw [drawConnectionsInner]
    simp only [hj, dite_false, Line.pairs, List.map_nil, List.nodup_nil, List.not_mem_nil,
      true_and, false_iff]
    rintro a b ⟨-, h1, hb, -⟩
    omega
  | succ n ih =>
    intro j0 h
    have hj : j0 < ps.length := by omega
    obtain ⟨ihn, ihm⟩ := ih (j0 + 1) (by omega)
    rw [drawConnectionsInner]
    simp only [hj, dite_true, Line.pairs_append]
    by_cases hd : dist ps[i] ps[j0] < 120
    · have hd' := hd
      simp only [dist] at hd'
      simp only [hd', if_true]
      constructor
      · simp only [Line.pairs, List.map_cons, List.map_nil, List.singleton_append,
          List.nodup_cons]
        refine ⟨?_, ihn⟩
        intro hmem
        have := (ihm i j0).1 hmem
        omega
      · intro a b
        simp only [Line.pairs, List.map_cons, List.map_nil, List.singleton_append,
          List.mem_cons, Prod.mk.injEq]
        constructor
        · rintro (⟨rfl, rfl⟩ | hmem)
          · exact ⟨rfl, le_refl _, hj, hd⟩
          · obtain ⟨h1, h2, h3⟩ := (ihm a b).1 hmem
            exact ⟨h1, by omega, h3⟩
        · rintro ⟨rfl, h2, hb, h3⟩
          by_cases hb0 : b = j0
          · exact Or.inl ⟨rfl, hb0⟩
          · exact Or.inr ((ihm a b).2 ⟨rfl, by omega, hb, h3⟩)
    · have hd' := hd
      simp only [dist] at hd'
      simp only [hd', if_false, Line.pairs, List.map_nil, List.nil_append]
      refine ⟨ihn, ?_⟩
      intro a b
      constructor
      · intro hmem
        obtain ⟨h1, h2, h3⟩ := (ihm a b).1 hmem
        exact ⟨h1, by omega, h3⟩
      · rintro ⟨rfl, h2, hb, h3⟩
        have hb0 : b ≠ j0 := by
          rintro rfl
          exact hd h3
        exact (ihm a b).2 ⟨rfl, by omega, hb, h3⟩

theorem outer_spec (ps : List Particle) :
    ∀ (n i0 : ℕ), ps.length - i0 = n →
      (Line.pairs (drawConnectionsOuter ps i0)).Nodup ∧
      ∀ a b, (a, b) ∈ Line.pairs (drawConnectionsOuter ps i0) ↔
        i0 ≤ a ∧ a < b ∧ ∃ (ha : a < ps.length) (hb : b < ps.length),
          dist ps[a] ps[b] < 120 := by
  intro n
  induction n with
  | zero =>
    intro i0 h
    have hi : ¬ i0 < ps.length := by omega
    rw [drawConnectionsOuter]
    simp only [hi, dite_false, Line.pairs, List.map_nil, List.nodup_nil, List.not_mem_nil,
      true_and, false_iff]
    rintro a b ⟨h1, -, ha, -, -⟩
    omega
  | succ n ih =>
    intro i0 h
    have hi : i0 < ps.length := by omega
    obtain ⟨ihn, ihm⟩ := ih (i0 + 1) (by omega)
    obtain ⟨inn, inm⟩ := inner_spec ps i0 hi _ (i0 + 1) rfl
    rw [drawConnectionsOuter]
    simp only [hi, dite_true, Line.pairs_append]
    constructor
    · rw [List.nodup_append]
      refine ⟨inn, ihn, ?_⟩
      rintro ⟨a, b⟩ h1 h2
      have e1 := (inm a b).1 h1
      have e2 := (ihm a b).1 h2
      omega
    · intro a b
      rw [List.mem_append, inm, ihm]
      constructor
      · rintro (⟨rfl, h2, hb, h3⟩ | ⟨h1, h2, h3⟩)
        · exact ⟨le_refl _, by omega, hi, hb, h3⟩
        · exact ⟨by omega, h2, h3⟩
      · rintro ⟨h1, h2, ha, hb, h3⟩
        by_cases ha0 : a = i0
        · subst ha0
          exact Or.inl ⟨rfl, by omega, hb, h3⟩
        · exact Or.inr ⟨by omega, h2, ha, hb, h3⟩

theorem drawConnections_spec (ps : List Particle) :
    (Line.pairs (drawConnections ps)).Nodup ∧
      ∀ a b, (a, b) ∈ Line.pairs (drawConnections ps) ↔
        a < b ∧ ∃ (ha : a < ps.length) (hb : b < ps.length), dist ps[a] ps[b] < 120 := by
  obtain ⟨h1, h2⟩ := outer_spec ps _ 0 rfl
  refine ⟨h1, fun a b => ?_⟩
  rw [drawConnections, h2]
  simp

theorem inner_strokes (ps : List Particle) (i : ℕ) (hi : i < ps.length) :
    ∀ (n j0 : ℕ), ps.length - j0 = n → ∀ l ∈ drawConnectionsInner ps i hi j0,
      ∃ (j : ℕ) (hj : j < ps.length), l =
        { i := i, j := j, x1 := ps[i].x, y1 := ps[i].y, x2 := ps[j].x, y2 := ps[j].y
          opacity := (1 - dist ps[i] ps[j] / 120) * 0.3, lineWidth := 0.5 } := by
  intro n
  induction n with
  | zero =>
    intro j0 h l hl
    have hj : ¬ j0 < ps.length := by omega
    rw [drawConnectionsInner] at hl
    simp only [hj, dite_false, List.not_mem_nil] at hl
  | succ n ih =>
    intro j0 h l hl
    have hj : j0 < ps.length := by omega
    rw [drawConnectionsInner] at hl
    simp only [hj, dite_true, List.mem_append] at hl
    rcases hl with hl | hl
    · split_ifs at hl with hd
      · rw [List.mem_singleton] at hl
        exact ⟨j0, hj, hl⟩
      · exact absurd hl (List.not_mem_nil _)
    · exact ih (j0 + 1) (by omega) l hl

theorem outer_strokes (ps : List Particle) :
    ∀ (n i0 : ℕ), ps.length - i0 = n → ∀ l ∈ drawConnectionsOuter ps i0,
      ∃ (i j : ℕ) (hi : i < ps.length) (hj : j < ps.length), l =
        { i := i, j := j, x1 := ps[i].x, y1 := ps[i].y, x2 := ps[j].x, y2 := ps[j].y
          opacity := (1 - dist ps[i] ps[j] / 120) * 0.3, lineWidth := 0.5 } := by
  intro n
  induction n with
  | zero =>
    intro i0 h l hl
    have hi : ¬ i0 < ps.length := by omega
    rw [drawConnectionsOuter] at hl
    simp only [hi, dite_false, List.not_mem_nil] at hl
  | succ n ih =>
    intro i0 h l hl
    have hi : i0 < ps.length := by omega
    rw [drawConnectionsOuter] at hl
    simp only [hi, dite_true, List.mem_append] at hl
    rcases hl with hl | hl
    · obtain ⟨j, hj, e⟩ := inner_strokes ps i0 hi _ (i0 + 1) rfl l hl
      exact ⟨i0, j, hi, hj, e⟩
    · exact ih (i0 + 1) (by omega) l hl

theorem drawConnections_strokes (ps : List Particle) (l : Line) :
    l ∈ drawConnections ps ↔
      ∃ (i j : ℕ) (hi : i < ps.length) (hj : j < ps.length),
        i < j ∧ dist ps[i] ps[j] < 120 ∧ l =
          { i := i, j := j, x1 := ps[i].x, y1 := ps[i].y, x2 := ps[j].x, y2 := ps[j].y
            opacity := (1 - dist ps[i] ps[j] / 120) * 0.3, lineWidth := 0.5 } := by
  obtain ⟨-, hm⟩ := drawConnections_spec ps
  constructor
  · intro hl
    obtain ⟨i, j, hi, hj, e⟩ := outer_strokes ps _ 0 rfl l hl
    have hp : (l.i, l.j) ∈ Line.pairs (drawConnections ps) :=
      List.mem_map.2 ⟨l, hl, rfl⟩
    have hij : (i, j) ∈ Line.pairs (drawConnections ps) := by
      rw [e] at hp
      exact hp
    obtain ⟨h1, _, _, h2⟩ := (hm i j).1 hij
    exact ⟨i, j, hi, hj, h1, h2, e⟩
  · rintro ⟨i, j, hi, hj, h1, h2, e⟩
    have hij : (i, j) ∈ Line.pairs (drawConnections ps) := (hm i j).2 ⟨h1, hi, hj, h2⟩
    obtain ⟨l', hl', e'⟩ := List.mem_map.1 hij
    obtain ⟨i', j', hi', hj', e''⟩ := outer_strokes ps _ 0 rfl l' hl'
    rw [e''] at e'
    obtain ⟨rfl, rfl⟩ := Prod.mk.inj e'
    rw [e, ← e'']
    exact hl'

end IndexJs

namespace ScriptJs

theorem connectInner_spec (ps : List Particle) (a0 : Particle) (i : ℕ) :
    ∀ (n j0 : ℕ), ps.length - j0 = n →
      (Line.pairs (connectInner ps a0 i j0)).Nodup ∧
      ∀ a b, (a, b) ∈ Line.pairs (connectInner ps a0 i j0) ↔
        a = i ∧ j0 ≤ b ∧ ∃ hb : b < ps.length, dist a0 ps[b] < 120 := by
  intro n
  induction n with
  | zero =>
    intro j0 h
    have hj : ¬ j0 < ps.length := by omega
    rw [connectInner]
    simp only [hj, dite_false, Line.pairs, List.map_nil, List.nodup_nil, List.not_mem_nil,
      true_and, false_iff]
    rintro a b ⟨-, h1, hb, -⟩
    omega
  | succ n ih =>
    intro j0 h
    have hj : j0 < ps.length := by omega
    obtain ⟨ihn, ihm⟩ := ih (j0 + 1) (by omega)
    rw [connectInner]
    simp only [hj, dite_true, Line.pairs_append]
    by_cases hd : dist a0 ps[j0] < 120
    · have hd' := hd
      simp only [dist] at hd'
      simp only [hd', if_true]
      constructor
      · simp only [Line.pairs, List.map_cons, List.map_nil, List.singleton_append,
          List.nodup_cons]
        refine ⟨?_, ihn⟩
        intro hmem
        have := (ihm i j0).1 hmem
        omega
      · intro a b
        simp only [Line.pairs, List.map_cons, List.map_nil, List.singleton_append,
          List.mem_cons, Prod.mk.injEq]
        constructor
        · rintro (⟨rfl, rfl⟩ | hmem)
          · exact ⟨rfl, le_refl _, hj, hd⟩
          · obtain ⟨h1, h2, h3⟩ := (ihm a b).1 hmem
            exact ⟨h1, by omega, h3⟩
        · rintro ⟨rfl, h2, hb, h3⟩
          by_cases hb0 : b = j0
          · exact Or.inl ⟨rfl, hb0⟩
          · exact Or.inr ((ihm a b).2 ⟨rfl, by omega, hb, h3⟩)
    · have hd' := hd
      simp only [dist] at hd'
      simp only [hd', if_false, Line.pairs, List.map_nil, List.nil_append]
      refine ⟨ihn, ?_⟩
      intro a b
      constructor
      · intro hmem
        obtain ⟨h1, h2, h3⟩ := (ihm a b).1 hmem
        exact ⟨h1, by omega, h3⟩
      · rintro ⟨rfl, h2, hb, h3⟩
        have hb0 : b ≠ j0 := by
          rintro rfl
          exact hd h3
        exact (ihm a b).2 ⟨rfl, by omega, hb, h3⟩

theorem connectForEach_spec (ps : List Particle) :
    ∀ (rest : List Particle) (i0 : ℕ), rest = ps.drop i0 →
      (Line.pairs (connectForEach ps rest i0)).Nodup ∧
      ∀ a b, (a, b) ∈ Line.pairs (connectForEach ps rest i0) ↔
        i0 ≤ a ∧ a < b ∧ ∃ (ha : a < ps.length) (hb : b < ps.length),
          dist ps[a] ps[b] < 120 := by
  intro rest
  induction rest with
  | nil =>
    intro i0 h
    have hi : ps.length ≤ i0 := by
      by_contra hlt
      have hlen := congrArg List.length h
      simp only [List.length_nil, List.length_drop] at hlen
      omega
    simp only [connectForEach, Line.pairs, List.map_nil, List.nodup_nil, List.not_mem_nil,
      true_and, false_iff]
    rintro a b ⟨h1, -, ha, -, -⟩
    omega
  | cons a0 rest ih =>
    intro i0 h
    have hi : i0 < ps.length := by
      have hlen := congrArg List.length h
      simp only [List.length_cons, List.length_drop] at hlen
      omega
    rw [List.drop_eq_getElem_cons hi] at h
    obtain ⟨ha0, hrest⟩ := List.cons.inj h
    obtain ⟨ihn, ihm⟩ := ih (i0 + 1) hrest
    obtain ⟨inn, inm⟩ := connectInner_spec ps a0 i0 _ (i0 + 1) rfl
    simp only [connectForEach, Line.pairs_append]
    constructor
    · rw [List.nodup_append]
      refine ⟨inn, ihn, ?_⟩
      rintro ⟨a, b⟩ h1 h2
      have e1 := (inm a b).1 h1
      have e2 := (ihm a b).1 h2
      omega
    · intro a b
      rw [List.mem_append, inm, ihm]
      constructor
      · rintro (⟨rfl, h2, hb, h3⟩ | ⟨h1, h2, h3⟩)
        · exact ⟨le_refl _, by omega, hi, hb, ha0 ▸ h3⟩
        · exact ⟨by omega, h2, h3⟩
      · rintro ⟨h1, h2, ha, hb, h3⟩
        by_cases hai : a = i0
        · subst hai
          exact Or.inl ⟨rfl, by omega, hb, ha0 ▸ h3⟩
        · exact Or.inr ⟨by omega, h2, ha, hb, h3⟩

theorem connectionPass_spec (ps : List Particle) :
    (Line.pairs (drawConnections ps)).Nodup ∧
      ∀ a b, (a, b) ∈ Line.pairs (drawConnections ps) ↔
        a < b ∧ ∃ (ha : a < ps.length) (hb : b < ps.length), dist ps[a] ps[b] < 120 := by
  obtain ⟨h1, h2⟩ := connectForEach_spec ps ps 0 rfl
  refine ⟨h1, fun a b => ?_⟩
  rw [drawConnections, h2]
  simp

theorem connectInner_strokes (ps : List Particle) (a0 : Particle) (i : ℕ) :
    ∀ (n j0 : ℕ), ps.length - j0 = n → ∀ l ∈ connectInner ps a0 i j0,
      ∃ (j : ℕ) (hj : j < ps.length), l =
        { i := i, j := j, x1 := a0.x, y1 := a0.y, x2 := ps[j].x, y2 := ps[j].y
          opacity := (120 - dist a0 ps[j]) / 120 * 0.15, lineWidth := 1 } := by
  intro n
  induction n with
  | zero =>
    intro j0 h l hl
    have hj : ¬ j0 < ps.length := by omega
    rw [connectInner] at hl
    simp only [hj, dite_false, List.not_mem_nil] at hl
  | succ n ih =>
    intro j0 h l hl
    have hj : j0 < ps.length := by omega
    rw [connectInner] at hl
    simp only [hj, dite_true, List.mem_append] at hl
    rcases hl with hl | hl
    · split_ifs at hl with hd
      · rw [List.mem_singleton] at hl
        exact ⟨j0, hj, hl⟩
      · exact absurd hl (List.not_mem_nil _)
    · exact ih (j0 + 1) (by omega) l hl

theorem connectForEach_strokes (ps : List Particle) :
    ∀ (rest : List Particle) (i0 : ℕ), rest = ps.drop i0 →
      ∀ l ∈ connectForEach ps rest i0,
        ∃ (i j : ℕ) (hi : i < ps.length) (hj : j < ps.length), l =
          { i := i, j := j, x1 := ps[i].x, y1 := ps[i].y, x2 := ps[j].x, y2 := ps[j].y
            opacity := (120 - dist ps[i] ps[j]) / 120 * 0.15, lineWidth := 1 } := by
  intro rest
  induction rest with
  | nil =>
    intro i0 _ l hl
    simp only [connectForEach, List.not_mem_nil] at hl
  | cons a0 rest ih =>
    intro i0 h l hl
    have hi : i0 < ps.length := by
      have hlen := congrArg List.length h
      simp only [List.length_cons, List.length_drop] at hlen
      omega
    rw [List.drop_eq_getElem_cons hi] at h
    obtain ⟨ha0, hrest⟩ := List.cons.inj h
    simp only [connectForEach, List.mem_append] at hl
    rcases hl with hl | hl
    · obtain ⟨j, hj, e⟩ := connectInner_strokes ps a0 i0 _ (i0 + 1) rfl l hl
      rw [ha0] at e
      exact ⟨i0, j, hi, hj, e⟩
    · exact ih (i0 + 1) hrest l hl

theorem connectionPass_strokes (ps : List Particle) (l : Line) :
    l ∈ drawConnections ps ↔
      ∃ (i j : ℕ) (hi : i < ps.length) (hj : j < ps.length),
        i < j ∧ dist ps[i] ps[j] < 120 ∧ l =
          { i := i, j := j, x1 := ps[i].x, y1 := ps[i].y, x2 := ps[j].x, y2 := ps[j].y
            opacity := (120 - dist ps[i] ps[j]) / 120 * 0.15, lineWidth := 1 } := by
  obtain ⟨-, hm⟩ := connectionPass_spec ps
  constructor
  · intro hl
    obtain ⟨i, j, hi, hj, e⟩ := connectForEach_strokes ps ps 0 rfl l hl
    have hp : (l.i, l.j) ∈ Line.pairs (drawConnections ps) :=
      List.mem_map.2 ⟨l, hl, rfl⟩
    have hij : (i, j) ∈ Line.pairs (drawConnections ps) := by
      rw [e] at hp
      exact hp
    obtain ⟨h1, _, _, h2⟩ := (hm i j).1 hij
    exact ⟨i, j, hi, hj, h1, h2, e⟩
  · rintro ⟨i, j, hi, hj, h1, h2, e⟩
    have hij : (i, j) ∈ Line.pairs (drawConnections ps) := (hm i j).2 ⟨h1, hi, hj, h2⟩
    obtain ⟨l', hl', e'⟩ := List.mem_map.1 hij
    obtain ⟨i', j', hi', hj', e''⟩ := connectForEach_strokes ps ps 0 rfl l' hl'
    rw [e''] at e'
    obtain ⟨rfl, rfl⟩ := Prod.mk.inj e'
    rw [e, ← e'']
    exact hl'

end ScriptJs

/-- C2. Connection rule. For every list of particles, the connection pass
(`drawConnections` of `index.js`, the connection loop of `animate` of `script.js`) draws
exactly these strokes: a stroke is drawn if and only if it is, for some indices `i < j`
of the list whose particles are at Euclidean distance strictly less than `120`, the line
from `(x, y)` of particle `i` to `(x, y)` of particle `j` (with the opacity and line width
of the engine). No stroke is drawn twice and no index pair gets two strokes; the index
pairs drawn are exactly the pairs `i < j` at distance `< 120`, so a pair at distance
exactly `120` gets no stroke and no pair is drawn in the reversed direction. -/
theorem C2_connection_rule (ps : List IndexJs.Particle) (qs : List ScriptJs.Particle) :
    ((∀ l : Line, l ∈ IndexJs.drawConnections ps ↔
        ∃ (i j : ℕ) (hi : i < ps.length) (hj : j < ps.length),
          i < j ∧ IndexJs.dist ps[i] ps[j] < 120 ∧ l =
            { i := i, j := j, x1 := ps[i].x, y1 := ps[i].y, x2 := ps[j].x, y2 := ps[j].y
              opacity := (1 - IndexJs.dist ps[i] ps[j] / 120) * 0.3, lineWidth := 0.5 }) ∧
      (IndexJs.drawConnections ps).Nodup ∧
      (Line.pairs (IndexJs.drawConnections ps)).Nodup ∧
      (∀ i j, (i, j) ∈ Line.pairs (IndexJs.drawConnections ps) ↔
        i < j ∧ ∃ (hi : i < ps.length) (hj : j < ps.length),
          IndexJs.dist ps[i] ps[j] < 120) ∧
      (∀ i j (hi : i < ps.length) (hj : j < ps.length), IndexJs.dist ps[i] ps[j] = 120 →
        (i, j) ∉ Line.pairs (IndexJs.drawConnections ps))) ∧
    ((∀ l : Line, l ∈ ScriptJs.drawConnections qs ↔
        ∃ (i j : ℕ) (hi : i < qs.length) (hj : j < qs.length),
          i < j ∧ ScriptJs.dist qs[i] qs[j] < 120 ∧ l =
            { i := i, j := j, x1 := qs[i].x, y1 := qs[i].y, x2 := qs[j].x, y2 := qs[j].y
              opacity := (120 - ScriptJs.dist qs[i] qs[j]) / 120 * 0.15, lineWidth := 1 }) ∧
      (ScriptJs.drawConnections qs).Nodup ∧
      (Line.pairs (ScriptJs.drawConnections qs)).Nodup ∧
      (∀ i j, (i, j) ∈ Line.pairs (ScriptJs.drawConnections qs) ↔
        i < j ∧ ∃ (hi : i < qs.length) (hj : j < qs.length),
          ScriptJs.dist qs[i] qs[j] < 120) ∧
      (∀ i j (hi : i < qs.length) (hj : j < qs.length), ScriptJs.dist qs[i] qs[j] = 120 →
        (i, j) ∉ Line.pairs (ScriptJs.drawConnections qs))) := by
  obtain ⟨a1, a2⟩ := IndexJs.drawConnections_spec ps
  obtain ⟨b1, b2⟩ := ScriptJs.connectionPass_spec qs
  refine ⟨⟨IndexJs.drawConnections_strokes ps, List.Nodup.of_map _ a1, a1, a2, ?_⟩,
    ⟨ScriptJs.connectionPass_strokes qs, List.Nodup.of_map _ b1, b1, b2, ?_⟩⟩
  · intro i j hi hj hd hmem
    obtain ⟨_, _, _, h⟩ := (a2 i j).1 hmem
    rw [hd] at h
    exact lt_irrefl _ h
  · intro i j hi hj hd hmem
    obtain ⟨_, _, _, h⟩ := (b2 i j).1 hmem
    rw [hd] at h
    exact lt_irrefl _ h

end Connections

section Velocity

theorem speed_eq_abs (a b : ℝ) : speed a b = Complex.abs ⟨a, b⟩ := by
  rw [Complex.abs_apply, Complex.normSq_mk, speed]

theorem speed_nonneg (a b : ℝ) : 0 ≤ speed a b := Real.sqrt_nonneg _

theorem speed_sub_le (a b c d : ℝ) : speed (a - c) (b - d) ≤ speed a b + speed c d := by
  simp only [speed_eq_abs]
  have h : (⟨a - c, b - d⟩ : ℂ) = (⟨a, b⟩ : ℂ) - ⟨c, d⟩ := by
    apply Complex.ext <;> simp
  rw [h, ← Complex.norm_eq_abs, ← Complex.norm_eq_abs, ← Complex.norm_eq_abs]
  exact norm_sub_le _ _

theorem speed_mul (a b c : ℝ) : speed (a * c) (b * c) = |c| * speed a b := by
  simp only [speed]
  have h : a * c * (a * c) + b * c * (b * c) = c * c * (a * a + b * b) := by ring
  rw [h, Real.sqrt_mul (mul_self_nonneg c), Real.sqrt_mul_self_eq_abs]

theorem speed_bounce (a b : ℝ) (c₁ c₂ : Prop) [Decidable c₁] [Decidable c₂] :
    speed (if c₁ then a * -1 else a) (if c₂ then b * -1 else b) = speed a b := by
  simp only [speed]
  congr 1
  split_ifs <;> ring

theorem speed_force_le (θ f k : ℝ) (hf0 : 0 ≤ f) (hf1 : f ≤ 1) (hk : 0 ≤ k) :
    speed (Real.cos θ * f * k) (Real.sin θ * f * k) ≤ k := by
  have h1 : Real.cos θ * f * k = Real.cos θ * (f * k) := by ring
  have h2 : Real.sin θ * f * k = Real.sin θ * (f * k) := by ring
  have h3 : speed (Real.cos θ) (Real.sin θ) = 1 := by
    simp only [speed]
    rw [← sq, ← sq, Real.cos_sq_add_sin_sq, Real.sqrt_one]
  rw [h1, h2, speed_mul, h3, mul_one, abs_of_nonneg (mul_nonneg hf0 hk)]
  calc f * k ≤ 1 * k := mul_le_mul_of_nonneg_right hf1 hk
    _ = k := one_mul k

theorem force_range (r d : ℝ) (hd0 : 0 ≤ d) (hd : d < r) :
    0 ≤ (r - d) / r ∧ (r - d) / r ≤ 1 := by
  have hr : 0 < r := lt_of_le_of_lt hd0 hd
  constructor
  · exact div_nonneg (by linarith) hr.le
  · rw [div_le_one hr]
    linarith

theorem speed_friction (a b : ℝ) : speed (a * 0.99) (b * 0.99) = 0.99 * speed a b := by
  rw [speed_mul, abs_of_nonneg (by norm_num)]

namespace IndexJs

theorem updateParticle_speed_le (canvas : Canvas) (mouse : Mouse) (p : Particle) :
    speed (updateParticle canvas mouse p).vx (updateParticle canvas mouse p).vy
      ≤ 0.99 * (speed p.vx p.vy + 0.2) := by
  have hb := speed_bounce p.vx p.vy (p.x + p.vx < 0 ∨ p.x + p.vx > canvas.width)
    (p.y + p.vy < 0 ∨ p.y + p.vy > canvas.height)
  have h0 : 0.99 * speed p.vx p.vy ≤ 0.99 * (speed p.vx p.vy + 0.2) := by
    have := speed_nonneg p.vx p.vy
    linarith
  rcases hx : mouse.x with _ | mx <;> rcases hy : mouse.y with _ | my <;>
    simp only [updateParticle, hx, hy, speed_friction, hb]
  · exact h0
  · exact h0
  · exact h0
  · generalize (if p.x + p.vx < 0 ∨ p.x + p.vx > canvas.width then p.vx * -1 else p.vx) = bx
      at hb ⊢
    generalize (if p.y + p.vy < 0 ∨ p.y + p.vy > canvas.height then p.vy * -1 else p.vy) = bY
      at hb ⊢
    by_cases hd : Real.sqrt ((mx - (p.x + p.vx)) * (mx - (p.x + p.vx)) +
        (my - (p.y + p.vy)) * (my - (p.y + p.vy))) < mouse.radius
    · simp only [hd, if_true, speed_friction]
      obtain ⟨f0, f1⟩ := force_range mouse.radius _ (Real.sqrt_nonneg _) hd
      have h1 := speed_sub_le bx bY
        (Real.cos (atan2 (my - (p.y + p.vy)) (mx - (p.x + p.vx))) *
          ((mouse.radius - Real.sqrt ((mx - (p.x + p.vx)) * (mx - (p.x + p.vx)) +
            (my - (p.y + p.vy)) * (my - (p.y + p.vy)))) / mouse.radius) * 0.2)
        (Real.sin (atan2 (my - (p.y + p.vy)) (mx - (p.x + p.vx))) *
          ((mouse.radius - Real.sqrt ((mx - (p.x + p.vx)) * (mx - (p.x + p.vx)) +
            (my - (p.y + p.vy)) * (my - (p.y + p.vy)))) / mouse.radius) * 0.2)
      have h2 := speed_force_le (atan2 (my - (p.y + p.vy)) (mx - (p.x + p.vx))) _ 0.2 f0 f1
        (by norm_num)
      rw [hb] at h1
      linarith
    · simp only [hd, if_false, speed_friction, hb]
      exact h0

theorem run_speed_le (canvas : Canvas) (mice : List Mouse) :
    ∀ p : Particle, speed (run canvas mice p).vx (run canvas mice p).vy
      ≤ max (speed p.vx p.vy) (99 * 0.2) := by
  induction mice with
  | nil => intro p; exact le_max_left _ _
  | cons m ms ih =>
    intro p
    have h1 := ih (updateParticle canvas m p)
    have h2 := updateParticle_speed_le canvas m p
    have h3 := le_max_left (speed p.vx p.vy) (99 * 0.2)
    have h4 := le_max_right (speed p.vx p.vy) (99 * 0.2)
    refine le_trans h1 (max_le ?_ h4)
    linarith

theorem abs_bounce_friction (a : ℝ) (c : Prop) [Decidable c] :
    |(if c then a * -1 else a) * 0.99| = 0.99 * |a| := by
  rw [abs_mul, abs_of_nonneg (show (0 : ℝ) ≤ 0.99 by norm_num), mul_comm]
  split_ifs
  · rw [mul_neg_one, abs_neg]
  · rfl

theorem updateParticle_null (canvas : Canvas) (mouse : Mouse) (p : Particle)
    (hx : mouse.x = none) (hy : mouse.y = none) :
    updateParticle canvas mouse p =
      { p with
        x := p.x + p.vx
        y := p.y + p.vy
        vx := (if p.x + p.vx < 0 ∨ p.x + p.vx > canvas.width then p.vx * -1 else p.vx) * 0.99
        vy := (if p.y + p.vy < 0 ∨ p.y + p.vy > canvas.height then p.vy * -1 else p.vy) * 0.99 } := by
  simp only [updateParticle, hx, hy]

theorem run_null_decay (canvas : Canvas) (mice : List Mouse) :
    ∀ p : Particle, (∀ m ∈ mice, m.x = none ∧ m.y = none) →
      |(run canvas mice p).vx| = 0.99 ^ mice.length * |p.vx| ∧
      |(run canvas mice p).vy| = 0.99 ^ mice.length * |p.vy| := by
  induction mice with
  | nil => intro p _; simp [run]
  | cons m ms ih =>
    intro p h
    obtain ⟨hx, hy⟩ := h m (List.mem_cons_self _ _)
    obtain ⟨h1, h2⟩ := ih (updateParticle canvas m p)
      (fun m' hm' => h m' (List.mem_cons_of_mem _ hm'))
    simp only [run, List.length_cons, pow_succ]
    rw [h1, h2, updateParticle_null canvas m p hx hy]
    simp only [abs_bounce_friction]
    constructor <;> ring

end IndexJs

namespace ScriptJs

theorem update_speed_le (width height : ℝ) (mouse : Mouse) (p : Particle) :
    speed (Particle.update width height mouse p).vx (Particle.update width height mouse p).vy
      ≤ 0.99 * (speed p.vx p.vy + 0.5) := by
  simp only [Particle.update, speed_bounce, speed_friction]
  by_cases hd : Real.sqrt ((mouse.x - p.x) * (mouse.x - p.x) +
      (mouse.y - p.y) * (mouse.y - p.y)) < mouse.radius
  · simp only [hd, if_true]
    obtain ⟨f0, f1⟩ := force_range mouse.radius _ (Real.sqrt_nonneg _) hd
    have h1 := speed_sub_le p.vx p.vy
      (Real.cos (atan2 (mouse.y - p.y) (mouse.x - p.x)) *
        ((mouse.radius - Real.sqrt ((mouse.x - p.x) * (mouse.x - p.x) +
          (mouse.y - p.y) * (mouse.y - p.y))) / mouse.radius) * 0.5)
      (Real.sin (atan2 (mouse.y - p.y) (mouse.x - p.x)) *
        ((mouse.radius - Real.sqrt ((mouse.x - p.x) * (mouse.x - p.x) +
          (mouse.y - p.y) * (mouse.y - p.y))) / mouse.radius) * 0.5)
    have h2 := speed_force_le (atan2 (mouse.y - p.y) (mouse.x - p.x)) _ 0.5 f0 f1
      (by norm_num)
    linarith
  · simp only [hd, if_false]
    have := speed_nonneg p.vx p.vy
    linarith

theorem run_update_speed_le (width height : ℝ) (mice : List Mouse) :
    ∀ p : Particle, speed (run width height mice p).vx (run width height mice p).vy
      ≤ max (speed p.vx p.vy) (99 * 0.5) := by
  induction mice with
  | nil => intro p; exact le_max_left _ _
  | cons m ms ih =>
    intro p
    have h1 := ih (Particle.update width height m p)
    have h2 := update_speed_le width height m p
    have h3 := le_max_left (speed p.vx p.vy) (99 * 0.5)
    have h4 := le_max_right (speed p.vx p.vy) (99 * 0.5)
    refine le_trans h1 (max_le ?_ h4)
    linarith

theorem abs_friction_bounce (a : ℝ) (c : Prop) [Decidable c] :
    |if c then a * 0.99 * -1 else a * 0.99| = 0.99 * |a| := by
  have h : |a * 0.99| = 0.99 * |a| := by
    rw [abs_mul, abs_of_nonneg (show (0 : ℝ) ≤ 0.99 by norm_num), mul_comm]
  split_ifs
  · rw [mul_neg_one, abs_neg, h]
  · exact h

theorem update_far (width height : ℝ) (mouse : Mouse) (p : Particle)
    (hd : mouse.radius ≤ pointerDistance mouse p) :
    (Particle.update width height mouse p).vx =
        (if p.x + p.vx < 0 ∨ p.x + p.vx > width then p.vx * 0.99 * -1 else p.vx * 0.99) ∧
      (Particle.update width height mouse p).vy =
        (if p.y + p.vy < 0 ∨ p.y + p.vy > height then p.vy * 0.99 * -1 else p.vy * 0.99) := by
  have hd' : ¬ Real.sqrt ((mouse.x - p.x) * (mouse.x - p.x) +
      (mouse.y - p.y) * (mouse.y - p.y)) < mouse.radius := not_lt.2 hd
  simp only [Particle.update, hd', if_false, and_self]

theorem run_unforced_decay (width height : ℝ) (mice : List Mouse) :
    ∀ p : Particle, Unforced width height mice p →
      |(run width height mice p).vx| = 0.99 ^ mice.length * |p.vx| ∧
      |(run width height mice p).vy| = 0.99 ^ mice.length * |p.vy| := by
  induction mice with
  | nil => intro p _; simp [run]
  | cons m ms ih =>
    intro p h
    obtain ⟨hr, hd, hrest⟩ := h
    obtain ⟨h1, h2⟩ := ih (Particle.update width height m p) hrest
    obtain ⟨e1, e2⟩ := update_far width height m p (hr ▸ hd)
    simp only [run, List.length_cons, pow_succ]
    rw [h1, h2, e1, e2]
    simp only [abs_friction_bounce]
    constructor <;> ring

end ScriptJs

theorem speed_of_abs (a b a0 b0 c : ℝ) (hc : 0 ≤ c) (ha : |a| = c * |a0|)
    (hb : |b| = c * |b0|) : speed a b = c * speed a0 b0 := by
  have h1 : a * a + b * b = c * c * (a0 * a0 + b0 * b0) := by
    have ea : a * a = |a| * |a| := (abs_mul_abs_self a).symm
    have eb : b * b = |b| * |b| := (abs_mul_abs_self b).symm
    have ea0 : a0 * a0 = |a0| * |a0| := (abs_mul_abs_self a0).symm
    have eb0 : b0 * b0 = |b0| * |b0| := (abs_mul_abs_self b0).symm
    rw [ea, eb, ea0, eb0, ha, hb]
    ring
  simp only [speed]
  rw [h1, Real.sqrt_mul (mul_self_nonneg c), Real.sqrt_mul_self hc]

theorem ScriptJs.update_far_pos (width height : ℝ) (mouse : ScriptJs.Mouse)
    (p : ScriptJs.Particle) (hd : mouse.radius ≤ ScriptJs.pointerDistance mouse p) :
    (ScriptJs.Particle.update width height mouse p).x = max 0 (min width (p.x + p.vx)) ∧
      (ScriptJs.Particle.update width height mouse p).y = max 0 (min height (p.y + p.vy)) := by
  have hd' : ¬ Real.sqrt ((mouse.x - p.x) * (mouse.x - p.x) +
      (mouse.y - p.y) * (mouse.y - p.y)) < mouse.radius := not_lt.2 hd
  simp only [ScriptJs.Particle.update, hd', if_false, and_self]

/-- C3. Geometric decay without forcing. `index.js`: along a run of `N = mice.length`
frames in each of which `mouse.x` and `mouse.y` are `null`; `script.js`: along a run of
`N = mice'.length` frames in each of which the particle is at distance at least `150`
from the pointer (`Unforced`). Then `|vx| = 0.99 ^ N * |vx₀|`, `|vy| = 0.99 ^ N * |vy₀|`
and the speed is `0.99 ^ N` times the initial speed, for every initial particle and
surface, whether or not the particle bounces off an edge on the way. -/
theorem C3_geometric_decay_without_forcing
    (canvas : IndexJs.Canvas) (mice : List IndexJs.Mouse) (p : IndexJs.Particle)
    (width height : ℝ) (mice' : List ScriptJs.Mouse) (q : ScriptJs.Particle)
    (hnull : ∀ m ∈ mice, m.x = none ∧ m.y = none)
    (hfar : ScriptJs.Unforced width height mice' q) :
    (|(IndexJs.run canvas mice p).vx| = 0.99 ^ mice.length * |p.vx| ∧
      |(IndexJs.run canvas mice p).vy| = 0.99 ^ mice.length * |p.vy| ∧
      speed (IndexJs.run canvas mice p).vx (IndexJs.run canvas mice p).vy
        = 0.99 ^ mice.length * speed p.vx p.vy) ∧
    (|(ScriptJs.run width height mice' q).vx| = 0.99 ^ mice'.length * |q.vx| ∧
      |(ScriptJs.run width height mice' q).vy| = 0.99 ^ mice'.length * |q.vy| ∧
      speed (ScriptJs.run width height mice' q).vx (ScriptJs.run width height mice' q).vy
        = 0.99 ^ mice'.length * speed q.vx q.vy) := by
  obtain ⟨a1, a2⟩ := IndexJs.run_null_decay canvas mice p hnull
  obtain ⟨b1, b2⟩ := ScriptJs.run_unforced_decay width height mice' q hfar
  have hc : ∀ n : ℕ, (0 : ℝ) ≤ 0.99 ^ n := fun n => pow_nonneg (by norm_num) n
  exact ⟨⟨a1, a2, speed_of_abs _ _ _ _ _ (hc _) a1 a2⟩,
    ⟨b1, b2, speed_of_abs _ _ _ _ _ (hc _) b1 b2⟩⟩

theorem ScriptJs.edgeParticle_unforced :
    ScriptJs.Unforced 800 600 [⟨0, 0, 150⟩, ⟨10, 20, 150⟩] ScriptJs.edgeParticle := by
  have h1 : (150 : ℝ) ≤ ScriptJs.pointerDistance ⟨0, 0, 150⟩ ScriptJs.edgeParticle := by
    simp only [ScriptJs.pointerDistance, ScriptJs.edgeParticle]
    rw [Real.le_sqrt' (by norm_num)]
    norm_num
  obtain ⟨ex, ey⟩ := ScriptJs.update_far_pos 800 600 ⟨0, 0, 150⟩ ScriptJs.edgeParticle h1
  refine ⟨rfl, h1, rfl, ?_, trivial⟩
  simp only [ScriptJs.pointerDistance]
  rw [ex, ey, Real.le_sqrt' (by norm_num)]
  norm_num [ScriptJs.edgeParticle, max_def, min_def]

/-- Witness of C3: two frames on a 800 × 600 surface, the particle bouncing off the right
edge in the first one; the pointer is absent (`index.js`), resp. far away near the top
left corner (`script.js`). -/
theorem C3_geometric_decay_without_forcing_witness :
    (|(IndexJs.run ⟨800, 600⟩ [IndexJs.Mouse.init,
          IndexJs.Mouse.mouseleave ⟨some 799, some 300, 150⟩] IndexJs.edgeParticle).vx|
        = 0.99 ^ 2 * |(5 : ℝ)| ∧
      |(IndexJs.run ⟨800, 600⟩ [IndexJs.Mouse.init,
          IndexJs.Mouse.mouseleave ⟨some 799, some 300, 150⟩] IndexJs.edgeParticle).vy|
        = 0.99 ^ 2 * |(-2 : ℝ)| ∧
      speed
        (IndexJs.run ⟨800, 600⟩ [IndexJs.Mouse.init,
          IndexJs.Mouse.mouseleave ⟨some 799, some 300, 150⟩] IndexJs.edgeParticle).vx
        (IndexJs.run ⟨800, 600⟩ [IndexJs.Mouse.init,
          IndexJs.Mouse.mouseleave ⟨some 799, some 300, 150⟩] IndexJs.edgeParticle).vy
        = 0.99 ^ 2 * speed 5 (-2)) ∧
    (|(ScriptJs.run 800 600 [⟨0, 0, 150⟩, ⟨10, 20, 150⟩] ScriptJs.edgeParticle).vx|
        = 0.99 ^ 2 * |(5 : ℝ)| ∧
      |(ScriptJs.run 800 600 [⟨0, 0, 150⟩, ⟨10, 20, 150⟩] ScriptJs.edgeParticle).vy|
        = 0.99 ^ 2 * |(-2 : ℝ)| ∧
      speed (ScriptJs.run 800 600 [⟨0, 0, 150⟩, ⟨10, 20, 150⟩] ScriptJs.edgeParticle).vx
        (ScriptJs.run 800 600 [⟨0, 0, 150⟩, ⟨10, 20, 150⟩] ScriptJs.edgeParticle).vy
        = 0.99 ^ 2 * speed 5 (-2)) :=
  C3_geometric_decay_without_forcing ⟨800, 600⟩
    [IndexJs.Mouse.init, IndexJs.Mouse.mouseleave ⟨some 799, some 300, 150⟩]
    IndexJs.edgeParticle 800 600 [⟨0, 0, 150⟩, ⟨10, 20, 150⟩] ScriptJs.edgeParticle
    (by simp [IndexJs.Mouse.init, IndexJs.Mouse.mouseleave])
    ScriptJs.edgeParticle_unforced

/-- C4. One-step velocity bound. For every particle, pointer state and surface, the
Euclidean speed after one step is at most `0.99 * (speed before + k)`, with `k = 0.2` for
`updateParticle` of `index.js` and `k = 0.5` for `Particle.update` of `script.js`. -/
theorem C4_one_step_velocity_bound
    (canvas : IndexJs.Canvas) (mouse : IndexJs.Mouse) (p : IndexJs.Particle)
    (width height : ℝ) (mouse' : ScriptJs.Mouse) (q : ScriptJs.Particle) :
    speed (IndexJs.updateParticle canvas mouse p).vx (IndexJs.updateParticle canvas mouse p).vy
        ≤ 0.99 * (speed p.vx p.vy + 0.2) ∧
      speed (ScriptJs.Particle.update width height mouse' q).vx
          (ScriptJs.Particle.update width height mouse' q).vy
        ≤ 0.99 * (speed q.vx q.vy + 0.5) :=
  ⟨IndexJs.updateParticle_speed_le canvas mouse p,
    ScriptJs.update_speed_le width height mouse' q⟩

/-- C5. Cleared pointer exerts no force (`index.js`). After the `mouseleave` handler, for
any former pointer state `mouse` (wherever it was, also within `150` of the particle),
`updateParticle` moves the particle to `(x + vx, y + vy)`, multiplies each velocity
component by `0.99`, negating it exactly when the new position is outside `[0, width]`
(resp. `[0, height]`) on that axis, leaves the radius alone, and gives the same result
for any other former pointer state `former`. -/
theorem C5_cleared_pointer_exerts_no_force
    (canvas : IndexJs.Canvas) (mouse former : IndexJs.Mouse) (p : IndexJs.Particle) :
    (IndexJs.updateParticle canvas (IndexJs.Mouse.mouseleave mouse) p).x = p.x + p.vx ∧
    (IndexJs.updateParticle canvas (IndexJs.Mouse.mouseleave mouse) p).y = p.y + p.vy ∧
    (IndexJs.updateParticle canvas (IndexJs.Mouse.mouseleave mouse) p).vx =
      0.99 * (if p.x + p.vx < 0 ∨ canvas.width < p.x + p.vx then -p.vx else p.vx) ∧
    (IndexJs.updateParticle canvas (IndexJs.Mouse.mouseleave mouse) p).vy =
      0.99 * (if p.y + p.vy < 0 ∨ canvas.height < p.y + p.vy then -p.vy else p.vy) ∧
    (IndexJs.updateParticle canvas (IndexJs.Mouse.mouseleave mouse) p).radius = p.radius ∧
    IndexJs.updateParticle canvas (IndexJs.Mouse.mouseleave former) p =
      IndexJs.updateParticle canvas (IndexJs.Mouse.mouseleave mouse) p := by
  rw [IndexJs.updateParticle_null canvas (IndexJs.Mouse.mouseleave mouse) p rfl rfl,
    IndexJs.updateParticle_null canvas (IndexJs.Mouse.mouseleave former) p rfl rfl]
  refine ⟨rfl, rfl, ?_, ?_, rfl, rfl⟩
  · show (if p.x + p.vx < 0 ∨ p.x + p.vx > canvas.width then p.vx * -1 else p.vx) * 0.99 = _
    split_ifs <;> ring
  · show (if p.y + p.vy < 0 ∨ p.y + p.vy > canvas.height then p.vy * -1 else p.vy) * 0.99 = _
    split_ifs <;> ring

/-- C8. Friction makes the system dissipative. For every initial particle, every surface
and every sequence `mice` of pointer states (one per frame, any length), the speed after
the run is at most `max (initial speed) (99 * k)`: the cap is `99 * 0.2 = 19.8` for
`index.js` and `99 * 0.5 = 49.5` for `script.js`. -/
theorem C8_speed_never_exceeds_cap
    (canvas : IndexJs.Canvas) (mice : List IndexJs.Mouse) (p : IndexJs.Particle)
    (width height : ℝ) (mice' : List ScriptJs.Mouse) (q : ScriptJs.Particle) :
    speed (IndexJs.run canvas mice p).vx (IndexJs.run canvas mice p).vy
        ≤ max (speed p.vx p.vy) 19.8 ∧
      speed (ScriptJs.run width height mice' q).vx (ScriptJs.run width height mice' q).vy
        ≤ max (speed q.vx q.vy) 49.5 := by
  have h1 := IndexJs.run_speed_le canvas mice p
  have h2 := ScriptJs.run_update_speed_le width height mice' q
  have e1 : (99 : ℝ) * 0.2 = 19.8 := by norm_num
  have e2 : (99 : ℝ) * 0.5 = 49.5 := by norm_num
  rw [e1] at h1
  rw [e2] at h2
  exact ⟨h1, h2⟩

end Velocity

section Repulsion

theorem cos_atan2 (dx dy : ℝ) (h : 0 < Real.sqrt (dx * dx + dy * dy)) :
    Real.cos (atan2 dy dx) = dx / Real.sqrt (dx * dx + dy * dy) := by
  have hz : (⟨dx, dy⟩ : ℂ) ≠ 0 := by
    intro h0
    have e1 : dx = 0 := congrArg Complex.re h0
    have e2 : dy = 0 := congrArg Complex.im h0
    rw [e1, e2] at h
    simp at h
  rw [atan2, Complex.cos_arg hz, Complex.abs_apply, Complex.normSq_mk]

theorem sin_atan2 (dx dy : ℝ) :
    Real.sin (atan2 dy dx) = dy / Real.sqrt (dx * dx + dy * dy) := by
  rw [atan2, Complex.sin_arg, Complex.abs_apply, Complex.normSq_mk]

theorem push_x (k r d dx v px mx : ℝ) (hdx : dx = mx - px) :
    v - dx / d * ((r - d) / r) * k = v + k * ((r - d) / r) * ((px - mx) / d) := by
  rw [hdx]
  field_simp
  ring

theorem push_speed (k d a b : ℝ) (hk : 0 ≤ k) (hd : 0 < d) (hd150 : d < 150)
    (h : Real.sqrt (a * a + b * b) = d) :
    speed (k * ((150 - d) / 150) * (-a / d)) (k * ((150 - d) / 150) * (-b / d))
      = k * (150 - d) / 150 := by
  have e1 : k * ((150 - d) / 150) * (-a / d) = a * (-(k * ((150 - d) / 150) / d)) := by
    field_simp
    ring
  have e2 : k * ((150 - d) / 150) * (-b / d) = b * (-(k * ((150 - d) / 150) / d)) := by
    field_simp
    ring
  have hc : 0 ≤ k * ((150 - d) / 150) / d :=
    div_nonneg (mul_nonneg hk (div_nonneg (by linarith) (by norm_num))) hd.le
  rw [e1, e2, speed_mul, abs_neg, abs_of_nonneg hc, speed, h]
  field_simp
  ring

theorem IndexJs.updateParticle_pointer (canvas : IndexJs.Canvas) (p : IndexJs.Particle)
    (mx my r : ℝ) :
    (IndexJs.updateParticle canvas ⟨some mx, some my, r⟩ p).vx =
      (if Real.sqrt ((mx - (p.x + p.vx)) * (mx - (p.x + p.vx)) +
          (my - (p.y + p.vy)) * (my - (p.y + p.vy))) < r then
        (if p.x + p.vx < 0 ∨ p.x + p.vx > canvas.width then p.vx * -1 else p.vx) -
          Real.cos (atan2 (my - (p.y + p.vy)) (mx - (p.x + p.vx))) *
            ((r - Real.sqrt ((mx - (p.x + p.vx)) * (mx - (p.x + p.vx)) +
              (my - (p.y + p.vy)) * (my - (p.y + p.vy)))) / r) * 0.2
      else (if p.x + p.vx < 0 ∨ p.x + p.vx > canvas.width then p.vx * -1 else p.vx)) * 0.99 ∧
    (IndexJs.updateParticle canvas ⟨some mx, some my, r⟩ p).vy =
      (if Real.sqrt ((mx - (p.x + p.vx)) * (mx - (p.x + p.vx)) +
          (my - (p.y + p.vy)) * (my - (p.y + p.vy))) < r then
        (if p.y + p.vy < 0 ∨ p.y + p.vy > canvas.height then p.vy * -1 else p.vy) -
          Real.sin (atan2 (my - (p.y + p.vy)) (mx - (p.x + p.vx))) *
            ((r - Real.sqrt ((mx - (p.x + p.vx)) * (mx - (p.x + p.vx)) +
              (my - (p.y + p.vy)) * (my - (p.y + p.vy)))) / r) * 0.2
      else (if p.y + p.vy < 0 ∨ p.y + p.vy > canvas.height then p.vy * -1 else p.vy)) * 0.99 := by
  simp only [IndexJs.updateParticle]
  by_cases h : Real.sqrt ((mx - (p.x + p.vx)) * (mx - (p.x + p.vx)) +
      (my - (p.y + p.vy)) * (my - (p.y + p.vy))) < r
  · simp only [h, if_true, and_self]
  · simp only [h, if_false, and_self]

theorem ScriptJs.update_pointer (width height : ℝ) (mouse : ScriptJs.Mouse)
    (q : ScriptJs.Particle) (ux uy : ℝ)
    (hux : ux = if ScriptJs.pointerDistance mouse q < mouse.radius then
      q.vx - Real.cos (atan2 (mouse.y - q.y) (mouse.x - q.x)) *
        ((mouse.radius - ScriptJs.pointerDistance mouse q) / mouse.radius) * 0.5 else q.vx)
    (huy : uy = if ScriptJs.pointerDistance mouse q < mouse.radius then
      q.vy - Real.sin (atan2 (mouse.y - q.y) (mouse.x - q.x)) *
        ((mouse.radius - ScriptJs.pointerDistance mouse q) / mouse.radius) * 0.5 else q.vy) :
    (ScriptJs.Particle.update width height mouse q).vx =
      (if q.x + ux < 0 ∨ q.x + ux > width then ux * 0.99 * -1 else ux * 0.99) ∧
    (ScriptJs.Particle.update width height mouse q).vy =
      (if q.y + uy < 0 ∨ q.y + uy > height then uy * 0.99 * -1 else uy * 0.99) := by
  simp only [ScriptJs.pointerDistance] at hux huy
  by_cases h : Real.sqrt ((mouse.x - q.x) * (mouse.x - q.x) +
      (mouse.y - q.y) * (mouse.y - q.y)) < mouse.radius
  · simp only [h, if_true] at hux huy
    simp only [ScriptJs.Particle.update, h, if_true, ← hux, ← huy, and_self]
  · simp only [h, if_false] at hux huy
    simp only [ScriptJs.Particle.update, h, if_false, ← hux, ← huy, and_self]

/-- C6. Repulsion pushes away from the pointer with linear falloff. Let `M` be the
pointer and `P` the position of the particle when the mouse interaction block runs: in
`index.js` that is the position after the move of the same frame, `(x + vx, y + vy)`, in
`script.js` the position at the start of the frame; let `d = |M - P|` (`d` for
`index.js`, `e` for `script.js`). If `0 < d < 150` the velocity before friction is the
(bounced, resp. old) velocity plus `k * ((150 - d) / 150) * (P - M) / d`, a vector of
magnitude `k * (150 - d) / 150` pointing from the pointer to the particle, with `k = 0.2`
in `index.js` and `k = 0.5` in `script.js`; if `d ≥ 150` nothing is added. (`ux`, `uy`
name the velocity of `script.js` after the push, before friction and bounce.) -/
theorem C6_repulsion_linear_falloff
    (canvas : IndexJs.Canvas) (p : IndexJs.Particle) (mx my d : ℝ)
    (width height : ℝ) (q : ScriptJs.Particle) (nx ny e ux uy : ℝ)
    (hd : d = Real.sqrt ((mx - (p.x + p.vx)) * (mx - (p.x + p.vx)) +
      (my - (p.y + p.vy)) * (my - (p.y + p.vy))))
    (he : e = Real.sqrt ((nx - q.x) * (nx - q.x) + (ny - q.y) * (ny - q.y)))
    (hux : ux = q.vx + 0.5 * ((150 - e) / 150) * ((q.x - nx) / e))
    (huy : uy = q.vy + 0.5 * ((150 - e) / 150) * ((q.y - ny) / e)) :
    ((0 < d ∧ d < 150 →
        (IndexJs.updateParticle canvas ⟨some mx, some my, 150⟩ p).vx =
          ((if p.x + p.vx < 0 ∨ p.x + p.vx > canvas.width then p.vx * -1 else p.vx)
            + 0.2 * ((150 - d) / 150) * ((p.x + p.vx - mx) / d)) * 0.99 ∧
        (IndexJs.updateParticle canvas ⟨some mx, some my, 150⟩ p).vy =
          ((if p.y + p.vy < 0 ∨ p.y + p.vy > canvas.height then p.vy * -1 else p.vy)
            + 0.2 * ((150 - d) / 150) * ((p.y + p.vy - my) / d)) * 0.99 ∧
        speed (0.2 * ((150 - d) / 150) * ((p.x + p.vx - mx) / d))
          (0.2 * ((150 - d) / 150) * ((p.y + p.vy - my) / d)) = 0.2 * (150 - d) / 150) ∧
      (150 ≤ d →
        (IndexJs.updateParticle canvas ⟨some mx, some my, 150⟩ p).vx =
          (if p.x + p.vx < 0 ∨ p.x + p.vx > canvas.width then p.vx * -1 else p.vx) * 0.99 ∧
        (IndexJs.updateParticle canvas ⟨some mx, some my, 150⟩ p).vy =
          (if p.y + p.vy < 0 ∨ p.y + p.vy > canvas.height then p.vy * -1 else p.vy) * 0.99)) ∧
    ((0 < e ∧ e < 150 →
        (ScriptJs.Particle.update width height ⟨nx, ny, 150⟩ q).vx =
          (if q.x + ux < 0 ∨ q.x + ux > width then ux * 0.99 * -1 else ux * 0.99) ∧
        (ScriptJs.Particle.update width height ⟨nx, ny, 150⟩ q).vy =
          (if q.y + uy < 0 ∨ q.y + uy > height then uy * 0.99 * -1 else uy * 0.99) ∧
        speed (0.5 * ((150 - e) / 150) * ((q.x - nx) / e))
          (0.5 * ((150 - e) / 150) * ((q.y - ny) / e)) = 0.5 * (150 - e) / 150) ∧
      (150 ≤ e →
        (ScriptJs.Particle.update width height ⟨nx, ny, 150⟩ q).vx =
          (if q.x + q.vx < 0 ∨ q.x + q.vx > width then q.vx * 0.99 * -1 else q.vx * 0.99) ∧
        (ScriptJs.Particle.update width height ⟨nx, ny, 150⟩ q).vy =
          (if q.y + q.vy < 0 ∨ q.y + q.vy > height then q.vy * 0.99 * -1
            else q.vy * 0.99))) := by
  obtain ⟨ix, iy⟩ := IndexJs.updateParticle_pointer canvas p mx my 150
  rw [← hd] at ix iy
  refine ⟨⟨?_, ?_⟩, ⟨?_, ?_⟩⟩
  · rintro ⟨h0, h1⟩
    rw [ix, iy, if_pos h1, if_pos h1, sin_atan2, cos_atan2 _ _ (hd ▸ h0), ← hd]
    refine ⟨?_, ?_, ?_⟩
    · rw [push_x 0.2 150 d _ _ (p.x + p.vx) mx rfl]
    · rw [push_x 0.2 150 d _ _ (p.y + p.vy) my rfl]
    · have e1 : p.x + p.vx - mx = -(mx - (p.x + p.vx)) := by ring
      have e2 : p.y + p.vy - my = -(my - (p.y + p.vy)) := by ring
      rw [e1, e2]
      exact push_speed 0.2 d _ _ (by norm_num) h0 h1 hd.symm
  · intro h1
    rw [ix, iy, if_neg (not_lt.2 h1), if_neg (not_lt.2 h1)]
    exact ⟨rfl, rfl⟩
  · rintro ⟨h0, h1⟩
    have hnear : ScriptJs.pointerDistance ⟨nx, ny, 150⟩ q < 150 := by
      simp only [ScriptJs.pointerDistance, ← he]
      exact h1
    obtain ⟨sx, sy⟩ := ScriptJs.update_pointer width height ⟨nx, ny, 150⟩ q ux uy
      (by
        rw [if_pos hnear]
        simp only [ScriptJs.pointerDistance, ← he]
        rw [hux, cos_atan2 _ _ (he ▸ h0), ← he, push_x 0.5 150 e _ _ q.x nx rfl])
      (by
        rw [if_pos hnear]
        simp only [ScriptJs.pointerDistance, ← he]
        rw [huy, sin_atan2, ← he, push_x 0.5 150 e _ _ q.y ny rfl])
    refine ⟨sx, sy, ?_⟩
    have e1 : q.x - nx = -(nx - q.x) := by ring
    have e2 : q.y - ny = -(ny - q.y) := by ring
    rw [e1, e2]
    exact push_speed 0.5 e _ _ (by norm_num) h0 h1 he.symm
  · intro h1
    have hfar : (150 : ℝ) ≤ ScriptJs.pointerDistance ⟨nx, ny, 150⟩ q := by
      simp only [ScriptJs.pointerDistance, ← he]
      exact h1
    exact ScriptJs.update_far width height ⟨nx, ny, 150⟩ q hfar

theorem sqrt_twenty_five : Real.sqrt 25 = 5 := by
  rw [Real.sqrt_eq_iff_mul_self_eq (by norm_num) (by norm_num)]
  norm_num

/-- Witness of C6: the pointer at `(106, 108)` and a particle that the interaction block
finds at `(103, 104)`, at distance `5`; the push is `k * (145 / 150) * (-3 / 5, -4 / 5)`. -/
theorem C6_repulsion_linear_falloff_witness :
    ((IndexJs.updateParticle ⟨800, 600⟩ ⟨some 106, some 108, 150⟩ ⟨100, 100, 3, 4, 1⟩).vx
        = (3 - 0.2 * (145 / 150) * (3 / 5)) * 0.99 ∧
      (IndexJs.updateParticle ⟨800, 600⟩ ⟨some 106, some 108, 150⟩ ⟨100, 100, 3, 4, 1⟩).vy
        = (4 - 0.2 * (145 / 150) * (4 / 5)) * 0.99) ∧
    ((ScriptJs.Particle.update 800 600 ⟨106, 108, 150⟩
          ⟨103, 104, 1, 2, 1, ScriptJs.palette, none, 1⟩).vx
        = (1 - 0.5 * (145 / 150) * (3 / 5)) * 0.99 ∧
      (ScriptJs.Particle.update 800 600 ⟨106, 108, 150⟩
          ⟨103, 104, 1, 2, 1, ScriptJs.palette, none, 1⟩).vy
        = (2 - 0.5 * (145 / 150) * (4 / 5)) * 0.99) := by
  have h := C6_repulsion_linear_falloff ⟨800, 600⟩ ⟨100, 100, 3, 4, 1⟩ 106 108 5
    800 600 ⟨103, 104, 1, 2, 1, ScriptJs.palette, none, 1⟩ 106 108 5
    (1 + 0.5 * ((150 - 5) / 150) * ((103 - 106) / 5))
    (2 + 0.5 * ((150 - 5) / 150) * ((104 - 108) / 5))
    (by norm_num [sqrt_twenty_five]) (by norm_num [sqrt_twenty_five]) rfl rfl
  obtain ⟨a1, a2, -⟩ := h.1.1 ⟨by norm_num, by norm_num⟩
  obtain ⟨b1, b2, -⟩ := h.2.1 ⟨by norm_num, by norm_num⟩
  refine ⟨⟨?_, ?_⟩, ⟨?_, ?_⟩⟩
  · rw [a1]; norm_num
  · rw [a2]; norm_num
  · rw [b1]; norm_num
  · rw [b2]; norm_num

end Repulsion

section StepOrder

open IndexJs

theorem updateParticle_eq_stepMoveFirst (canvas : Canvas) (mouse : Mouse) (p : Particle) :
    updateParticle canvas mouse p = Spec.stepMoveFirst canvas mouse p := by
  obtain ⟨x, y, vx, vy, radius⟩ := p
  obtain ⟨ox, oy, r⟩ := mouse
  rcases ox with _ | mx <;> rcases oy with _ | my <;>
    simp only [updateParticle, Spec.stepMoveFirst, Spec.friction, Spec.repel, Spec.bounce,
      Spec.integrate, Particle.mk.injEq, true_and, gt_iff_lt, mul_neg, mul_one]
  · by_cases hd : Real.sqrt ((mx - (x + vx)) * (mx - (x + vx)) +
        (my - (y + vy)) * (my - (y + vy))) < r
    · simp only [hd, if_true]
      refine ⟨trivial, trivial, ?_, ?_, trivial⟩ <;> ring
    · simp only [hd, if_false, and_self]

/-- C9 (amended). Step order of `updateParticle` in `index.js`: for every particle,
pointer state and surface it produces the same particle (position, velocity, radius) as
the four steps of the specification applied in the order (2) `position += velocity`
with the velocity the frame started with, (3) per-axis velocity inversion if the new
position is outside `[0, dimension]`, (1) pointer repulsion, computed at the new
position and added to the velocity, (4) `velocity *= 0.99`. -/
theorem C9_updateParticle_moves_before_repulsion
    (canvas : Canvas) (mouse : Mouse) (p : Particle) :
    updateParticle canvas mouse p = Spec.stepMoveFirst canvas mouse p :=
  updateParticle_eq_stepMoveFirst canvas mouse p

/-- C9 as stated fails. On a 1000 × 1000 canvas, a particle at rest at `(100, 100)` with
the pointer at `(101, 100)`: `updateParticle` leaves it at `x = 100` (it moves with the
old velocity `0` and is pushed afterwards), while the steps in the stated order push
first and move it to `x = 100 - 0.2 * (149 / 150)`. -/
theorem C9_stated_order_counterexample :
    (updateParticle ⟨1000, 1000⟩ ⟨some 101, some 100, 150⟩ ⟨100, 100, 0, 0, 1⟩).x = 100 ∧
    (Spec.stepStatedOrder ⟨1000, 1000⟩ ⟨some 101, some 100, 150⟩ ⟨100, 100, 0, 0, 1⟩).x
      = 100 - 0.2 * (149 / 150) ∧
    updateParticle ⟨1000, 1000⟩ ⟨some 101, some 100, 150⟩ ⟨100, 100, 0, 0, 1⟩ ≠
      Spec.stepStatedOrder ⟨1000, 1000⟩ ⟨some 101, some 100, 150⟩ ⟨100, 100, 0, 0, 1⟩ := by
  have hs : Real.sqrt ((101 - 100) * (101 - 100) + (100 - 100) * (100 - 100)) = 1 := by
    norm_num
  have hc : Real.cos (atan2 (100 - 100) (101 - 100)) = 1 := by
    rw [cos_atan2 _ _ (by rw [hs]; norm_num), hs]
    norm_num
  have h1 : (updateParticle ⟨1000, 1000⟩ ⟨some 101, some 100, 150⟩ ⟨100, 100, 0, 0, 1⟩).x
      = 100 := by
    simp only [updateParticle]
    norm_num
  have h2 : (Spec.stepStatedOrder ⟨1000, 1000⟩ ⟨some 101, some 100, 150⟩
      ⟨100, 100, 0, 0, 1⟩).x = 100 - 0.2 * (149 / 150) := by
    simp only [Spec.stepStatedOrder, Spec.friction, Spec.bounce, Spec.integrate, Spec.repel, hs,
      hc]
    norm_num
  refine ⟨h1, h2, fun h => ?_⟩
  have h3 := congrArg Particle.x h
  rw [h1, h2] at h3
  norm_num at h3

end StepOrder

section EndToEnd

open IndexJs

theorem IndexJs.dist_lt_iff (a b : Particle) :
    dist a b < 120 ↔ (a.x - b.x) * (a.x - b.x) + (a.y - b.y) * (a.y - b.y) < 14400 := by
  rw [dist, Real.sqrt_lt' (by norm_num)]
  norm_num

theorem threeParticles_step (canvas : Canvas) (mouse : Mouse) (r0 r1 r2 : ℝ) :
    (threeParticles r0 r1 r2).map (updateParticle canvas (Mouse.mouseleave mouse))
      = threeParticles r0 r1 r2 := by
  simp only [threeParticles, List.map, updateParticle_null _ (Mouse.mouseleave mouse) _ rfl rfl]
  norm_num

theorem threeParticles_pairs (r0 r1 r2 : ℝ) :
    Line.pairs (drawConnections (threeParticles r0 r1 r2)) = [(0, 1)] := by
  obtain ⟨hn, hm⟩ := drawConnections_spec (threeParticles r0 r1 r2)
  rw [← List.perm_singleton, List.perm_ext_iff_of_nodup hn (List.nodup_singleton _)]
  rintro ⟨a, b⟩
  rw [hm, List.mem_singleton, Prod.mk.injEq]
  constructor
  · rintro ⟨hab, ha, hb, hd⟩
    rw [IndexJs.dist_lt_iff] at hd
    have ha3 : a < 3 := ha
    have hb3 : b < 3 := hb
    rcases a with _ | _ | _ | a <;> rcases b with _ | _ | _ | b <;>
      first
      | omega
      | norm_num [threeParticles] at hd
  · rintro ⟨rfl, rfl⟩
    refine ⟨by norm_num, by simp [threeParticles], by simp [threeParticles], ?_⟩
    rw [IndexJs.dist_lt_iff]
    simp only [threeParticles, List.getElem_cons_zero, List.getElem_cons_succ]
    norm_num

theorem threeParticles_strokes (r0 r1 r2 : ℝ) :
    drawConnections (threeParticles r0 r1 r2) =
      [{ i := 0, j := 1, x1 := 0, y1 := 0, x2 := 50, y2 := 0
         opacity := (1 - 50 / 120) * 0.3, lineWidth := 0.5 }] := by
  have hp := threeParticles_pairs r0 r1 r2
  have hs := drawConnections_strokes (threeParticles r0 r1 r2)
  have hd : IndexJs.dist { x := 0, y := 0, vx := 0, vy := 0, radius := r0 }
      { x := 50, y := 0, vx := 0, vy := 0, radius := r1 } = 50 := by
    simp only [IndexJs.dist]
    rw [Real.sqrt_eq_iff_mul_self_eq (by norm_num) (by norm_num)]
    norm_num
  rcases hL : drawConnections (threeParticles r0 r1 r2) with _ | ⟨s, _ | ⟨t, rest⟩⟩
  · rw [hL] at hp
    simp [Line.pairs] at hp
  · rw [hL] at hp
    obtain ⟨i, j, hi, hj, -, -, e⟩ := (hs s).1 (by rw [hL]; exact List.mem_singleton_self s)
    have hij : (i, j) = (0, 1) := by
      rw [e] at hp
      simpa [Line.pairs] using hp
    obtain ⟨rfl, rfl⟩ := Prod.mk.inj hij
    rw [e]
    simp only [threeParticles, List.getElem_cons_zero, List.getElem_cons_succ, hd]
  · rw [hL] at hp
    simp [Line.pairs] at hp

/-- C7. End-to-end degenerate scenario (`index.js`). Three particles at `(0, 0)`,
`(50, 0)`, `(200, 200)` with zero velocity, the pointer absent (`mouse.x = mouse.y = null`,
as after `mouseleave`), a canvas with `width ≥ 200` and `height ≥ 200`: one step
(`updateParticle` on each particle) returns the same field (positions unchanged,
velocities zero), no particle meets a bounce condition, and the connection pass that
follows draws exactly one stroke: the line from `(0, 0)` to `(50, 0)`, the positions of
particles `0` and `1` (opacity `(1 - 50 / 120) * 0.3`, line width `0.5`); its index pair
is `(0, 1)`, hence no line involves particle `2`. -/
theorem C7_end_to_end_three_particles
    (canvas : Canvas) (mouse : Mouse) (r0 r1 r2 : ℝ)
    (hw : 200 ≤ canvas.width) (hh : 200 ≤ canvas.height) :
    (threeParticles r0 r1 r2).map (updateParticle canvas (Mouse.mouseleave mouse))
        = threeParticles r0 r1 r2 ∧
      (∀ p ∈ threeParticles r0 r1 r2,
        ¬ (p.x + p.vx < 0 ∨ p.x + p.vx > canvas.width) ∧
        ¬ (p.y + p.vy < 0 ∨ p.y + p.vy > canvas.height)) ∧
      Line.pairs (drawConnections
        ((threeParticles r0 r1 r2).map (updateParticle canvas (Mouse.mouseleave mouse))))
        = [(0, 1)] ∧
      drawConnections
        ((threeParticles r0 r1 r2).map (updateParticle canvas (Mouse.mouseleave mouse)))
        = [{ i := 0, j := 1, x1 := 0, y1 := 0, x2 := 50, y2 := 0
             opacity := (1 - 50 / 120) * 0.3, lineWidth := 0.5 }] := by
  refine ⟨threeParticles_step canvas mouse r0 r1 r2, ?_, ?_, ?_⟩
  · intro p hp
    simp only [threeParticles, List.mem_cons, List.mem_singleton, List.not_mem_nil,
      or_false] at hp
    rcases hp with rfl | rfl | rfl <;> refine ⟨?_, ?_⟩ <;> rintro (h | h) <;>
      dsimp only at h <;> linarith
  · rw [threeParticles_step canvas mouse r0 r1 r2]
    exact threeParticles_pairs r0 r1 r2
  · rw [threeParticles_step canvas mouse r0 r1 r2]
    exact threeParticles_strokes r0 r1 r2

/-- Witness of C7: a 800 × 600 canvas, the pointer cleared from `(10, 10)`. -/
theorem C7_end_to_end_three_particles_witness :
    (threeParticles 1 2 3).map
        (updateParticle ⟨800, 600⟩ (Mouse.mouseleave ⟨some 10, some 10, 150⟩))
        = threeParticles 1 2 3 ∧
      (∀ p ∈ threeParticles 1 2 3,
        ¬ (p.x + p.vx < 0 ∨ p.x + p.vx > 800) ∧ ¬ (p.y + p.vy < 0 ∨ p.y + p.vy > 600)) ∧
      Line.pairs (drawConnections ((threeParticles 1 2 3).map
        (updateParticle ⟨800, 600⟩ (Mouse.mouseleave ⟨some 10, some 10, 150⟩))))
        = [(0, 1)] ∧
      drawConnections ((threeParticles 1 2 3).map
        (updateParticle ⟨800, 600⟩ (Mouse.mouseleave ⟨some 10, some 10, 150⟩)))
        = [{ i := 0, j := 1, x1 := 0, y1 := 0, x2 := 50, y2 := 0
             opacity := (1 - 50 / 120) * 0.3, lineWidth := 0.5 }] :=
  C7_end_to_end_three_particles ⟨800, 600⟩ ⟨some 10, some 10, 150⟩ 1 2 3
    (by norm_num) (by norm_num)

end EndToEnd

section Construction

theorem IndexJs.createParticlesLoop_eq (canvas : IndexJs.Canvas) (n : ℕ) (rand : ℕ → ℝ) :
    ∀ (k i : ℕ) (acc : List IndexJs.Particle), n - i = k →
      IndexJs.createParticlesLoop canvas n rand i acc
        = acc ++ (List.range' i (n - i)).map (IndexJs.newParticle canvas rand) := by
  intro k
  induction k with
  | zero =>
    intro i acc h
    have hi : ¬ i < n := by omega
    rw [IndexJs.createParticlesLoop, if_neg hi, h]
    simp
  | succ k ih =>
    intro i acc h
    have hi : i < n := by omega
    have e : n - i = (n - (i + 1)) + 1 := by omega
    rw [IndexJs.createParticlesLoop, if_pos hi, ih (i + 1) _ (by omega), e, List.range'_succ]
    simp

theorem ScriptJs.createLoop_eq (width height : ℝ) (n : ℕ) (rand : ℕ → ℝ) :
    ∀ (k i : ℕ) (acc : List ScriptJs.Particle), n - i = k →
      ScriptJs.createLoop width height n rand i acc
        = acc ++ (List.range' i (n - i)).map
            (fun i => ScriptJs.Particle.new width height rand (7 * i)) := by
  intro k
  induction k with
  | zero =>
    intro i acc h
    have hi : ¬ i < n := by omega
    rw [ScriptJs.createLoop, if_neg hi, h]
    simp
  | succ k ih =>
    intro i acc h
    have hi : i < n := by omega
    have e : n - i = (n - (i + 1)) + 1 := by omega
    rw [ScriptJs.createLoop, if_pos hi, ih (i + 1) _ (by omega), e, List.range'_succ]
    simp

theorem IndexJs.newParticle_ranges (canvas : IndexJs.Canvas) (rand : ℕ → ℝ) (i : ℕ)
    (hw : 0 < canvas.width) (hh : 0 < canvas.height) (hr : ∀ k, 0 ≤ rand k ∧ rand k < 1) :
    IndexJs.InConstructionRanges canvas (IndexJs.newParticle canvas rand i) := by
  obtain ⟨a0, a1⟩ := hr (5 * i)
  obtain ⟨b0, b1⟩ := hr (5 * i + 1)
  obtain ⟨c0, c1⟩ := hr (5 * i + 2)
  obtain ⟨d0, d1⟩ := hr (5 * i + 3)
  obtain ⟨e0, e1⟩ := hr (5 * i + 4)
  simp only [IndexJs.InConstructionRanges, IndexJs.newParticle]
  refine ⟨⟨mul_nonneg a0 hw.le, mul_lt_of_lt_one_left hw a1⟩,
    ⟨mul_nonneg b0 hh.le, mul_lt_of_lt_one_left hh b1⟩, ⟨?_, ?_⟩, ⟨?_, ?_⟩, ⟨?_, ?_⟩⟩ <;>
    norm_num <;> linarith

theorem ScriptJs.colorIndex_range (r : ℝ) (h0 : 0 ≤ r) (h1 : r < 1) :
    ScriptJs.colorIndex ScriptJs.palette r = 0 ∨ ScriptJs.colorIndex ScriptJs.palette r = 1 ∨
      ScriptJs.colorIndex ScriptJs.palette r = 2 := by
  have hl : ((ScriptJs.palette.length : ℕ) : ℝ) = 3 := by
    simp [ScriptJs.palette]
  have hlo : 0 ≤ ScriptJs.colorIndex ScriptJs.palette r := by
    rw [ScriptJs.colorIndex, hl]
    exact Int.floor_nonneg.2 (by linarith)
  have hhi : ScriptJs.colorIndex ScriptJs.palette r < 3 := by
    rw [ScriptJs.colorIndex, hl, Int.floor_lt]
    push_cast
    linarith
  omega

theorem ScriptJs.new_ranges (width height : ℝ) (rand : ℕ → ℝ) (k : ℕ)
    (hw : 0 < width) (hh : 0 < height) (hr : ∀ k, 0 ≤ rand k ∧ rand k < 1) :
    ScriptJs.InConstructionRanges width height (ScriptJs.Particle.new width height rand k) := by
  obtain ⟨a0, a1⟩ := hr k
  obtain ⟨b0, b1⟩ := hr (k + 1)
  obtain ⟨c0, c1⟩ := hr (k + 2)
  obtain ⟨d0, d1⟩ := hr (k + 3)
  obtain ⟨e0, e1⟩ := hr (k + 4)
  obtain ⟨f0, f1⟩ := hr (k + 5)
  obtain ⟨g0, g1⟩ := hr (k + 6)
  simp only [ScriptJs.InConstructionRanges, ScriptJs.Particle.new]
  refine ⟨⟨mul_nonneg a0 hw.le, mul_lt_of_lt_one_left hw a1⟩,
    ⟨mul_nonneg b0 hh.le, mul_lt_of_lt_one_left hh b1⟩, ⟨?_, ?_⟩, ⟨?_, ?_⟩, ⟨?_, ?_⟩,
    ⟨?_, ?_⟩, ?_⟩
  any_goals (norm_num; linarith)
  rcases ScriptJs.colorIndex_range (rand (k + 5)) f0 f1 with h | h | h <;>
    rw [h] <;> simp [jsIndex, ScriptJs.palette]

/-- C10. Construction ranges. With every `Math.random()` call an arbitrary real of
`[0, 1)` and a surface with `width > 0`, `height > 0`: the collection built by the
constructor and `init` of `index.js` holds exactly `50` particles, that of the creation
loop of `script.js` exactly `80`, and every particle has `0 ≤ x < width`,
`0 ≤ y < height`, a radius in `[1, 3)` (`index.js`) resp. a size in `[0.5, 3)`
(`script.js`), velocity components in `[-0.25, 0.25)` resp. `[-0.4, 0.4)`, and in
`script.js` an alpha in `[0.2, 0.7)` and a colour of the palette, the palette index
`floor(r * 3)` being `0`, `1` or `2` for every `r` in `[0, 1)`. -/
theorem C10_construction_ranges (rand : ℕ → ℝ) (width height r : ℝ)
    (hr : ∀ k, 0 ≤ rand k ∧ rand k < 1) (hw : 0 < width) (hh : 0 < height)
    (hr0 : 0 ≤ r) (hr1 : r < 1) :
    ((IndexJs.ParticleSystem.new width height rand).particles.length = 50 ∧
      ∀ p ∈ (IndexJs.ParticleSystem.new width height rand).particles,
        IndexJs.InConstructionRanges ⟨width, height⟩ p) ∧
    ((ScriptJs.createParticles width height rand).length = 80 ∧
      ∀ p ∈ ScriptJs.createParticles width height rand,
        ScriptJs.InConstructionRanges width height p) ∧
    (ScriptJs.colorIndex ScriptJs.palette r = 0 ∨ ScriptJs.colorIndex ScriptJs.palette r = 1 ∨
      ScriptJs.colorIndex ScriptJs.palette r = 2) := by
  have e1 : (IndexJs.ParticleSystem.new width height rand).particles
      = (List.range' 0 50).map (IndexJs.newParticle ⟨width, height⟩ rand) := by
    simp only [IndexJs.ParticleSystem.new, IndexJs.ParticleSystem.createParticles,
      IndexJs.ParticleSystem.resize]
    rw [IndexJs.createParticlesLoop_eq _ _ _ _ 0 [] rfl]
    simp
  have e2 : ScriptJs.createParticles width height rand
      = (List.range' 0 80).map (fun i => ScriptJs.Particle.new width height rand (7 * i)) := by
    rw [ScriptJs.createParticles, ScriptJs.createLoop_eq _ _ _ _ _ 0 [] rfl]
    simp
  refine ⟨⟨?_, ?_⟩, ⟨?_, ?_⟩, ScriptJs.colorIndex_range r hr0 hr1⟩
  · rw [e1]; simp
  · intro p hp
    rw [e1, List.mem_map] at hp
    obtain ⟨i, -, rfl⟩ := hp
    exact IndexJs.newParticle_ranges ⟨width, height⟩ rand i hw hh hr
  · rw [e2]; simp
  · intro p hp
    rw [e2, List.mem_map] at hp
    obtain ⟨i, -, rfl⟩ := hp
    exact ScriptJs.new_ranges width height rand (7 * i) hw hh hr

/-- Witness of C10: every `Math.random()` call returns `1 / 2`, on a 800 × 600 surface. -/
theorem C10_construction_ranges_witness :
    ((IndexJs.ParticleSystem.new 800 600 (fun _ => 1 / 2)).particles.length = 50 ∧
      ∀ p ∈ (IndexJs.ParticleSystem.new 800 600 (fun _ => 1 / 2)).particles,
        IndexJs.InConstructionRanges ⟨800, 600⟩ p) ∧
    ((ScriptJs.createParticles 800 600 (fun _ => 1 / 2)).length = 80 ∧
      ∀ p ∈ ScriptJs.createParticles 800 600 (fun _ => 1 / 2),
        ScriptJs.InConstructionRanges 800 600 p) ∧
    (ScriptJs.colorIndex ScriptJs.palette (1 / 2) = 0 ∨
      ScriptJs.colorIndex ScriptJs.palette (1 / 2) = 1 ∨
      ScriptJs.colorIndex ScriptJs.palette (1 / 2) = 2) :=
  C10_construction_ranges (fun _ => 1 / 2) 800 600 (1 / 2)
    (fun _ => ⟨by norm_num, by norm_num⟩) (by norm_num) (by norm_num) (by norm_num)
    (by norm_num)

end Construction

section Resize

/-- C11. Resize changes only the surface dimensions. For every engine state and every
new `(width, height)`, also one smaller than before, `resize` of `index.js` and of
`script.js` stores the new dimensions and leaves the particle collection as it was: the
same list, hence the same count and, at every index, the same particle (`x`, `y`, `vx`,
`vy`, radius); a particle outside the new bounds keeps its position. The pointer state
(and `particleCount`) is untouched too. -/
theorem C11_resize_changes_only_dimensions
    (s : IndexJs.ParticleSystem) (g : ScriptJs.Globals) (width height : ℝ) :
    ((IndexJs.ParticleSystem.resize s width height).particles = s.particles ∧
      (IndexJs.ParticleSystem.resize s width height).particles.length = s.particles.length ∧
      (∀ i : ℕ, (IndexJs.ParticleSystem.resize s width height).particles[i]? = s.particles[i]?) ∧
      (IndexJs.ParticleSystem.resize s width height).canvas = ⟨width, height⟩ ∧
      (IndexJs.ParticleSystem.resize s width height).mouse = s.mouse ∧
      (IndexJs.ParticleSystem.resize s width height).particleCount = s.particleCount) ∧
    ((ScriptJs.resize g width height).particles = g.particles ∧
      (ScriptJs.resize g width height).particles.length = g.particles.length ∧
      (∀ i : ℕ, (ScriptJs.resize g width height).particles[i]? = g.particles[i]?) ∧
      (ScriptJs.resize g width height).width = width ∧
      (ScriptJs.resize g width height).height = height ∧
      (ScriptJs.resize g width height).mouse = g.mouse) :=
  ⟨⟨rfl, rfl, fun _ => rfl, rfl, rfl, rfl⟩, ⟨rfl, rfl, fun _ => rfl, rfl, rfl, rfl⟩⟩

end Resize

section Overshoot

open IndexJs

theorem run_null_stays_right (canvas : Canvas) (mice : List Mouse) :
    ∀ p : Particle, (∀ m ∈ mice, m.x = none ∧ m.y = none) →
      canvas.width < p.x → canvas.width < p.x + p.vx →
      canvas.width < (run canvas mice p).x ∧
        canvas.width < (run canvas mice p).x + (run canvas mice p).vx := by
  induction mice with
  | nil => intro p _ h1 h2; exact ⟨h1, h2⟩
  | cons m ms ih =>
    intro p h h1 h2
    obtain ⟨hx, hy⟩ := h m (List.mem_cons_self _ _)
    have hout : p.x + p.vx < 0 ∨ p.x + p.vx > canvas.width := Or.inr h2
    refine ih (updateParticle canvas m p) (fun m' hm' => h m' (List.mem_cons_of_mem _ hm'))
      ?_ ?_
    · rw [updateParticle_null canvas m p hx hy]
      exact h2
    · rw [updateParticle_null canvas m p hx hy]
      simp only [if_pos hout]
      linarith

theorem stuckParticle_first_step :
    updateParticle ⟨800, 600⟩ Mouse.init stuckParticle
      = { x := 800.199, y := 300, vx := -0.198, vy := 0, radius := 1 } := by
  rw [updateParticle_null _ Mouse.init _ rfl rfl]
  simp only [stuckParticle, Particle.mk.injEq]
  norm_num

/-- C12, the code at a failing input. On a 800 × 600 canvas with the pointer absent, the
particle `stuckParticle` (`x = 799.999`, `vx = 0.2`, a state `createParticles` can
produce) is inside the canvas, is at `x = 800.199` after one `updateParticle`, and is
still to the right of the edge `x = 800` after every later tick: after `n + 1` ticks,
for every `n`, its `x` exceeds `800`. The velocity is inverted again on every tick it
spends outside, so the particle never comes back. -/
theorem C12_overshoot_can_be_permanent (n : ℕ) :
    InConstructionRanges ⟨800, 600⟩ stuckParticle ∧
      (updateParticle ⟨800, 600⟩ Mouse.init stuckParticle).x = 800.199 ∧
      (800 : ℝ) < (run ⟨800, 600⟩ (List.replicate (n + 1) Mouse.init) stuckParticle).x := by
  refine ⟨?_, ?_, ?_⟩
  · simp only [InConstructionRanges, stuckParticle]
    norm_num
  · rw [stuckParticle_first_step]
  · have h := run_null_stays_right ⟨800, 600⟩ (List.replicate n Mouse.init)
      (updateParticle ⟨800, 600⟩ Mouse.init stuckParticle)
      (fun m hm => by rw [List.eq_of_mem_replicate hm]; exact ⟨rfl, rfl⟩)
      (by rw [stuckParticle_first_step]; norm_num)
      (by rw [stuckParticle_first_step]; norm_num)
    simpa only [List.replicate_succ, run] using h.1

end Overshoot

end Me2026
